import Mathlib

/-!
Shallow embedding of the chunk-generation engine of `bevy-generative-chunks`
(files `src/generative_chunks/bounds.rs`, `usage.rs`, `layer.rs`,
`layer_client.rs`, `layer_manager.rs`).

Modelling conventions:
* `f32` coordinates are modelled as exact rationals (`ℚ`); the spatial code
  only uses +, -, *, /, floor and ceil, which are exact here.
* Rust `HashMap` values are modelled as association lists; well-formedness
  hypotheses require the key list to be duplicate-free, which every map
  produced by the engine satisfies.
* `Box<dyn Chunk>` trait objects are modelled as a pair of a runtime type
  identifier (`ty : ℕ`, standing for `TypeId`) and a value; `downcast_ref`
  succeeds exactly when the stored identifier equals the requested one.
* Calls that the Rust code performs through `.unwrap()` / `.expect(..)` on a
  missing key (a configuration error that panics) are modelled as no-ops or
  `none`; every theorem that depends on such a lookup carries a registration
  hypothesis, so the divergence is never exercised.
-/

/-- Real-valued 2D point (`bevy::math::Vec2`, exact-rational model). -/
structure Point where
  x : ℚ
  y : ℚ
deriving DecidableEq, Repr

/-- Axis-aligned rectangle in real coordinates (`Bounds` in `bounds.rs`). -/
structure Bounds where
  min : Point
  max : Point
deriving DecidableEq, Repr

/-- `Bounds::add_padding` from `bounds.rs`. -/
def Bounds.add_padding (b : Bounds) (padding : Point) : Bounds :=
  ⟨⟨b.min.x - padding.x, b.min.y - padding.y⟩, ⟨b.max.x + padding.x, b.max.y + padding.y⟩⟩

/-- `Bounds::from_point` from `bounds.rs`. -/
def Bounds.from_point (p : Point) : Bounds := ⟨p, p⟩

/-- `Bounds::contains` from `bounds.rs`. -/
def Bounds.contains (b : Bounds) (p : Point) : Prop :=
  p.x ≥ b.min.x ∧ p.x ≤ b.max.x ∧ p.y ≥ b.min.y ∧ p.y ≤ b.max.y

/-- Integer chunk-grid coordinate (`ChunkIdx` in `bounds.rs`). -/
structure ChunkIdx where
  x : ℤ
  y : ℤ
deriving DecidableEq, Repr

/-- Inclusive integer range `lo..=hi` as a list. -/
def intRange (lo hi : ℤ) : List ℤ :=
  (List.range (hi + 1 - lo).toNat).map (fun (n : ℕ) => lo + (n : ℤ))

/-- `Bounds::chunks` from `bounds.rs`: enumerate the chunk indices of the
inclusive integer box from `floor(min/chunk_size)` to `ceil(max/chunk_size)`,
iterating x outermost then y, exactly as the Rust iterator chain does. -/
def Bounds.chunks (b : Bounds) (chunk_size : Point) : List ChunkIdx :=
  let minc : ℤ × ℤ := (⌊b.min.x / chunk_size.x⌋, ⌊b.min.y / chunk_size.y⌋)
  let maxc : ℤ × ℤ := (⌈b.max.x / chunk_size.x⌉, ⌈b.max.y / chunk_size.y⌉)
  (intRange minc.1 maxc.1).flatMap
    (fun x => (intRange minc.2 maxc.2).map (fun y => ⟨x, y⟩))

/-- `ChunkIdx::to_point` from `bounds.rs`. -/
def ChunkIdx.to_point (i : ChunkIdx) (chunk_size : Point) : Point :=
  ⟨(i.x : ℚ) * chunk_size.x, (i.y : ℚ) * chunk_size.y⟩

/-- `ChunkIdx::center` from `bounds.rs` (`to_point + chunk_size / 2`). -/
def ChunkIdx.center (i : ChunkIdx) (chunk_size : Point) : Point :=
  ⟨(i.x : ℚ) * chunk_size.x + chunk_size.x / 2, (i.y : ℚ) * chunk_size.y + chunk_size.y / 2⟩

/-- `ChunkIdx::from_point` from `bounds.rs`: componentwise `floor(pos / size)`. -/
def ChunkIdx.from_point (pos : Point) (chunk_width chunk_height : ℚ) : ChunkIdx :=
  ⟨⌊pos.x / chunk_width⌋, ⌊pos.y / chunk_height⌋⟩

/-- `ChunkIdx::to_bounds` from `bounds.rs`: the cell rectangle of an index. -/
def ChunkIdx.to_bounds (i : ChunkIdx) (width height : ℚ) : Bounds :=
  ⟨⟨(i.x : ℚ) * width, (i.y : ℚ) * height⟩,
   ⟨((i.x : ℚ) + 1) * width, ((i.y : ℚ) + 1) * height⟩⟩

/-- Modelled from the spec: two axis-aligned closed rectangles intersect
(share at least one point, boundary touches included).  This is the
specification-side notion used by the coverage claims; the source file has no
such function (its `Bounds::intersects` is corner-based and is not used by
`Bounds::chunks`). -/
def rectsIntersect (a b : Bounds) : Prop :=
  a.min.x ≤ b.max.x ∧ b.min.x ≤ a.max.x ∧ a.min.y ≤ b.max.y ∧ b.min.y ≤ a.max.y

instance : DecidablePred (fun p : Bounds × Bounds => rectsIntersect p.1 p.2) := by
  intro p
  unfold rectsIntersect
  infer_instance

instance (a b : Bounds) : Decidable (rectsIntersect a b) := by
  unfold rectsIntersect
  infer_instance

-- Basic facts about `intRange` and `Bounds.chunks`.

theorem intRange_mem (lo hi x : ℤ) : x ∈ intRange lo hi ↔ lo ≤ x ∧ x ≤ hi := by
  unfold intRange
  simp only [List.mem_map, List.mem_range]
  constructor
  · rintro ⟨n, hn, rfl⟩
    omega
  · rintro ⟨h1, h2⟩
    exact ⟨(x - lo).toNat, by omega, by omega⟩

theorem intRange_nodup (lo hi : ℤ) : (intRange lo hi).Nodup := by
  unfold intRange
  apply List.Nodup.map
  · intro a b h
    have h' : lo + (a : ℤ) = lo + (b : ℤ) := h
    omega
  · exact List.nodup_range _

theorem chunks_mem (b : Bounds) (s : Point) (i : ChunkIdx) :
    i ∈ b.chunks s ↔
      (⌊b.min.x / s.x⌋ ≤ i.x ∧ i.x ≤ ⌈b.max.x / s.x⌉ ∧
       ⌊b.min.y / s.y⌋ ≤ i.y ∧ i.y ≤ ⌈b.max.y / s.y⌉) := by
  unfold Bounds.chunks
  simp only [List.mem_flatMap, List.mem_map]
  constructor
  · rintro ⟨x, hx, y, hy, rfl⟩
    rw [intRange_mem] at hx hy
    exact ⟨hx.1, hx.2, hy.1, hy.2⟩
  · rintro ⟨h1, h2, h3, h4⟩
    exact ⟨i.x, (intRange_mem _ _ _).mpr ⟨h1, h2⟩, i.y, (intRange_mem _ _ _).mpr ⟨h3, h4⟩, rfl⟩

theorem chunks_nodup (b : Bounds) (s : Point) : (b.chunks s).Nodup := by
  unfold Bounds.chunks
  refine List.nodup_flatMap.mpr ⟨?_, ?_⟩
  · intro x _
    apply List.Nodup.map
    · intro a b h
      cases h
      rfl
    · exact intRange_nodup _ _
  · refine (intRange_nodup _ _).pairwise_of_forall_ne ?_
    intro a _ b _ hab
    simp only [Function.onFun, List.Disjoint, List.mem_map]
    rintro i ⟨c, _, rfl⟩ ⟨d, _, h⟩
    cases h
    exact hab rfl

/-- `UsageStrategy` from `usage.rs`. -/
inductive UsageStrategy where
  | keepAlive
  | slow
  | fast
deriving DecidableEq, Repr

/-- `UsageCounter` from `usage.rs`: three independent non-negative counts. -/
structure UsageCounter where
  keep_alive : ℕ
  slow : ℕ
  fast : ℕ
deriving DecidableEq, Repr

/-- `UsageCounter::new` from `usage.rs`. -/
def UsageCounter.new : UsageCounter := ⟨0, 0, 0⟩

/-- `UsageCounter::is_empty` from `usage.rs`. -/
def UsageCounter.is_empty (c : UsageCounter) : Bool :=
  c.keep_alive == 0 && c.slow == 0 && c.fast == 0

/-- `UsageCounter::clear` from `usage.rs`. -/
def UsageCounter.clear (_ : UsageCounter) : UsageCounter := ⟨0, 0, 0⟩

/-- `UsageCounter::increment` from `usage.rs`. -/
def UsageCounter.increment (c : UsageCounter) (usage : UsageStrategy) : UsageCounter :=
  match usage with
  | UsageStrategy.keepAlive => { c with keep_alive := c.keep_alive + 1 }
  | UsageStrategy.slow => { c with slow := c.slow + 1 }
  | UsageStrategy.fast => { c with fast := c.fast + 1 }

/-- `UsageCounter::best_usage` from `usage.rs`. -/
def UsageCounter.best_usage (c : UsageCounter) : Option UsageStrategy :=
  if c.fast > 0 then some UsageStrategy.fast
  else if c.slow > 0 then some UsageStrategy.slow
  else if c.keep_alive > 0 then some UsageStrategy.keepAlive
  else none

theorem best_usage_none_iff (c : UsageCounter) :
    c.best_usage = none ↔ c.is_empty = true := by
  unfold UsageCounter.best_usage UsageCounter.is_empty
  by_cases h1 : c.fast > 0 <;> by_cases h2 : c.slow > 0 <;> by_cases h3 : c.keep_alive > 0 <;>
    simp [h1, h2, h3] <;> omega

theorem is_empty_increment (c : UsageCounter) (u : UsageStrategy) :
    (c.increment u).is_empty = false := by
  cases u <;> simp [UsageCounter.increment, UsageCounter.is_empty]

/-- A chunk payload behind `Box<dyn Chunk>`: a runtime type identifier
(`ty`, standing for Rust's `TypeId` of the concrete `Chunk` type) together
with the payload value (abstracted to an integer). -/
structure DynChunk where
  ty : ℕ
  val : ℤ
deriving DecidableEq, Repr

/-- `downcast_ref::<T>` on a `Box<dyn Chunk>`: succeeds exactly when the
stored runtime type identifier is the requested one. -/
def DynChunk.downcast (c : DynChunk) (tag : ℕ) : Option ℤ :=
  if c.ty = tag then some c.val else none

/-- `ChunkWrapper` from `layer.rs`. -/
structure ChunkWrapper where
  chunk : Option DynChunk
  usage_counter : UsageCounter
deriving DecidableEq, Repr

/-- `ChunkWrapper::new` from `layer.rs`. -/
def ChunkWrapper.new : ChunkWrapper := ⟨none, UsageCounter.new⟩

/-- `ChunkWrapper::get_chunk::<T>` from `layer.rs`:
`self.chunk.as_ref().and_then(|c| c.downcast_ref::<T>())`. -/
def ChunkWrapper.get_chunk (w : ChunkWrapper) (tag : ℕ) : Option ℤ :=
  w.chunk.bind (fun c => c.downcast tag)

/-- Association-list lookup (model of `HashMap::get`, first match). -/
def alookup {α β : Type} [DecidableEq α] : List (α × β) → α → Option β
  | [], _ => none
  | e :: l, k => if e.1 = k then some e.2 else alookup l k

/-- Map a function over the value stored at a key (model of in-place
mutation of a `HashMap` entry; entries with other keys are untouched). -/
def aupdate {α β : Type} [DecidableEq α] (l : List (α × β)) (k : α) (f : β → β) :
    List (α × β) :=
  l.map (fun e => if e.1 = k then (e.1, f e.2) else e)

theorem alookup_aupdate {α β : Type} [DecidableEq α]
    (l : List (α × β)) (k k' : α) (f : β → β) :
    alookup (aupdate l k f) k' =
      if k' = k then (alookup l k').map f else alookup l k' := by
  induction l with
  | nil => simp [alookup, aupdate]
  | cons e l ih =>
    simp only [aupdate, List.map_cons, alookup]
    by_cases h1 : e.1 = k <;> by_cases h2 : e.1 = k' <;>
      simp_all [alookup, aupdate] <;> split <;> simp_all

theorem aupdate_map_fst {α β : Type} [DecidableEq α]
    (l : List (α × β)) (k : α) (f : β → β) :
    (aupdate l k f).map Prod.fst = l.map Prod.fst := by
  induction l with
  | nil => rfl
  | cons e l ih =>
    simp only [aupdate, List.map_cons] at *
    split <;> simp_all

theorem alookup_map_value {α β γ : Type} [DecidableEq α]
    (l : List (α × β)) (f : β → γ) (k : α) :
    alookup (l.map (fun e => (e.1, f e.2))) k = (alookup l k).map f := by
  induction l with
  | nil => rfl
  | cons e l ih =>
    simp only [List.map_cons, alookup]
    split <;> simp_all

theorem alookup_isSome_iff_mem {α β : Type} [DecidableEq α]
    (l : List (α × β)) (k : α) :
    (alookup l k).isSome = true ↔ k ∈ l.map Prod.fst := by
  induction l with
  | nil => simp [alookup]
  | cons e l ih =>
    simp only [alookup, List.map_cons, List.mem_cons]
    by_cases h : e.1 = k
    · subst h
      simp
    · rw [if_neg h, ih]
      have h' : ¬ k = e.1 := fun hh => h hh.symm
      simp [h']

theorem alookup_eq_none_iff {α β : Type} [DecidableEq α]
    (l : List (α × β)) (k : α) :
    alookup l k = none ↔ k ∉ l.map Prod.fst := by
  rw [← alookup_isSome_iff_mem]
  cases alookup l k <;> simp

/-- Per-producer chunk storage: `HashMap<ChunkIdx, ChunkWrapper>` as an
association list. -/
abbrev Storage := List (ChunkIdx × ChunkWrapper)

/-- Key list of a storage map. -/
def sKeys (s : Storage) : List ChunkIdx := s.map Prod.fst

/-- Producer identity (`LayerId` from `layer_id.rs`, an opaque stable id;
modelled as a natural number). -/
abbrev LayerId := ℕ

/-- `Dependency` from `layer.rs`. -/
structure Dependency where
  layer_id : LayerId
  padding : Point
deriving DecidableEq, Repr

/-- Read-only cross-producer view handed to generation functions: the
primitive `LayerLookupChunk::get_chunk_from_idx` access path (layer id and
chunk index to the stored boxed payload, before any downcast). -/
abbrev LayerLookup := LayerId → ChunkIdx → Option DynChunk

/-- `LayerConfig` from `layer.rs`.  The generation closure field is called
`generate` in the source; it is named `generator` here so that the method
`LayerConfig.generate` below can keep its source name. -/
structure LayerConfig where
  layer_id : LayerId
  depends_on : List Dependency
  chunk_size : Point
  storage : Storage
  generator : LayerLookup → ChunkIdx → DynChunk

/-- The `(dep_layer_id, padded_bounds)` pairs produced from a list of cached
indices; `LayerConfig::requires` is this applied to the storage key set. -/
def requiresFrom (deps : List Dependency) (chunk_size : Point) (idxs : List ChunkIdx) :
    List (LayerId × Bounds) :=
  idxs.flatMap (fun idx =>
    let bounds := idx.to_bounds chunk_size.x chunk_size.y
    deps.map (fun dep => (dep.layer_id, bounds.add_padding dep.padding)))

/-- `LayerConfig::requires` from `layer.rs`: for every cached index and every
declared dependency, one demand pair. -/
def LayerConfig.requires (c : LayerConfig) : List (LayerId × Bounds) :=
  requiresFrom c.depends_on c.chunk_size (sKeys c.storage)

/-- One iteration of the loop in `LayerConfig::ensure_generated`: insert an
empty `ChunkWrapper` if the index is absent, then increment the entry's usage
counter.  The source increments `UsageStrategy::Fast` unconditionally (its
`TODO: Implement the correct usage strategy` comment notwithstanding). -/
def ensureChunk (s : Storage) (idx : ChunkIdx) : Storage :=
  let s' := match alookup s idx with
    | some _ => s
    | none => s ++ [(idx, ChunkWrapper.new)]
  aupdate s' idx (fun w => { w with usage_counter := w.usage_counter.increment UsageStrategy.fast })

/-- `LayerConfig::ensure_generated` from `layer.rs`. -/
def LayerConfig.ensure_generated (c : LayerConfig) (bounds : Bounds) : LayerConfig :=
  { c with storage := (bounds.chunks c.chunk_size).foldl ensureChunk c.storage }

/-- `LayerGenerationResult` from `layer.rs`. -/
structure LayerGenerationResult where
  deleted : List ChunkIdx
deriving DecidableEq, Repr

/-- The per-entry mutation of the loop in `LayerConfig::generate` (the loop
iterates with `iter_mut` and never touches the key): on `Fast` with an absent
payload the generator runs; every other tier leaves the wrapper alone. -/
def generateWrapper (gen : ChunkIdx → DynChunk) (idx : ChunkIdx) (w : ChunkWrapper) :
    ChunkWrapper :=
  match w.usage_counter.best_usage with
  | some UsageStrategy.fast =>
      if w.chunk.isNone then { w with chunk := some (gen idx) } else w
  | _ => w

/-- `LayerConfig::generate` from `layer.rs`: one pass over the storage that
generates missing `Fast` payloads, collects the zero-usage indices, removes
them, and reports them.  The `to_delete` list is computed from the original
entries; this matches the source because the in-loop payload updates never
change a usage counter. -/
def LayerConfig.generate (c : LayerConfig) (lookup : LayerLookup) :
    LayerConfig × LayerGenerationResult :=
  let processed := c.storage.map
    (fun e => (e.1, generateWrapper (c.generator lookup) e.1 e.2))
  let to_delete := c.storage.filterMap
    (fun e => if e.2.usage_counter.best_usage = none then some e.1 else none)
  let storage' := to_delete.foldl
    (fun s idx => s.filter (fun e => decide (e.1 ≠ idx))) processed
  ({ c with storage := storage' }, ⟨to_delete⟩)

/-- Zero every entry's usage counter (the loop body of
`LayerConfig::clear_usage`). -/
def clearStorage (s : Storage) : Storage :=
  s.map (fun e => (e.1, { e.2 with usage_counter := e.2.usage_counter.clear }))

/-- `LayerConfig::clear_usage` from `layer.rs`. -/
def LayerConfig.clear_usage (c : LayerConfig) : LayerConfig :=
  { c with storage := clearStorage c.storage }

/-- `LayerClient` from `layer_client.rs` (a demand source). -/
structure LayerClient where
  active : Bool
  center : Point
  dependencies : List Dependency
  strategy : UsageStrategy

/-- `LayerClient::new` from `layer_client.rs`: starts active. -/
def LayerClient.new (center : Point) (dependencies : List Dependency)
    (strength : UsageStrategy) : LayerClient :=
  ⟨true, center, dependencies, strength⟩

/-- `LayersManager` from `layer_manager.rs`.  The `daggy::Dag` is represented
by its node and edge lists together with the node order in which
`daggy::petgraph::visit::Topo` walks it (dependents before dependencies);
`LayersManagerBuilder::build` fills `topo` with such an order. -/
structure LayersManager where
  layers : List (LayerId × LayerConfig)
  dag_nodes : List LayerId
  dag_edges : List (LayerId × LayerId)
  topo : List LayerId
  layer_client : List LayerClient
  delete_list : List (LayerId × List ChunkIdx)

/-- Lookup of one producer's config (`self.layers.get(&id)`). -/
def getLayer (m : LayersManager) (lid : LayerId) : Option LayerConfig :=
  alookup m.layers lid

/-- In-place mutation of one producer's config.  When the id is unregistered
the source panics on `.unwrap()`; the model leaves the manager unchanged. -/
def updateLayer (m : LayersManager) (lid : LayerId) (f : LayerConfig → LayerConfig) :
    LayersManager :=
  { m with layers := aupdate m.layers lid f }

/-- The read-only view `LayerLookupChunk { layers: &self.layers }` reduced to
its primitive access path: fetch the boxed payload stored for a layer id and
chunk index (`get_chunk_from_idx` before the downcast).  An unregistered
layer id panics in the source and yields `none` here. -/
def mkLookup (layers : List (LayerId × LayerConfig)) : LayerLookup :=
  fun lid idx =>
    match alookup layers lid with
    | none => none
    | some cfg => (alookup cfg.storage idx).bind (fun w => w.chunk)

/-- `LayerLookupChunk::get_chunk::<L>` from `layer_manager.rs`: convert the
position to an index with `L::Chunk::get_size()` (the requesting layer
supplies the size of the target layer type), fetch, downcast to `L::Chunk`
(runtime type `tag`). -/
def lookupGetChunk (layers : List (LayerId × LayerConfig)) (tag : ℕ) (lid : LayerId)
    (size : Point) (pos : Point) : Option ℤ :=
  (mkLookup layers lid (ChunkIdx.from_point pos size.x size.y)).bind
    (fun c => c.downcast tag)

/-- `LayersManager::get_chunk::<L>` from `layer_manager.rs`: look the layer
up, convert the position to an index with the layer's own chunk size, fetch
the wrapper and downcast its payload to `L::Chunk` (runtime type `tag`).
An unregistered layer id panics in the source and yields `none` here. -/
def LayersManager.get_chunk (m : LayersManager) (tag : ℕ) (lid : LayerId)
    (pos : Point) : Option ℤ :=
  match getLayer m lid with
  | none => none
  | some layer =>
    let idx := ChunkIdx.from_point pos layer.chunk_size.x layer.chunk_size.y
    (alookup layer.storage idx).bind (fun w => w.get_chunk tag)

/-- `LayersManager::clear_usage` from `layer_manager.rs`. -/
def LayersManager.clear_usage (m : LayersManager) : LayersManager :=
  { m with layers := m.layers.map (fun e => (e.1, e.2.clear_usage)) }

/-- `LayersManager::clear_deleted` from `layer_manager.rs`. -/
def LayersManager.clear_deleted (m : LayersManager) : LayersManager :=
  { m with delete_list := m.delete_list.map (fun e => (e.1, ([] : List ChunkIdx))) }

/-- `LayersManager::check_client_usages` from `layer_manager.rs`: for every
active client and every dependency, demand the padded point neighbourhood on
the target layer.  The client's `strategy` field is not consulted —
`ensure_generated` takes no tier and increments `Fast`. -/
def LayersManager.check_client_usages (m : LayersManager) : LayersManager :=
  m.layer_client.foldl
    (fun acc client =>
      if client.active then
        client.dependencies.foldl
          (fun acc2 dep =>
            updateLayer acc2 dep.layer_id
              (fun layer => layer.ensure_generated
                ((Bounds.from_point client.center).add_padding dep.padding)))
          acc
      else acc)
    m

/-- One demand-cascade visit of `LayersManager::generate_requirements` (the
body of the `while let Some(node) = topo.next(..)` loop): read the visited
layer's requirements from its current cache and `ensure_generated` each of
them on the corresponding dependency. -/
def demandVisit (m : LayersManager) (lid : LayerId) : LayersManager :=
  match getLayer m lid with
  | none => m
  | some cfg =>
    cfg.requires.foldl
      (fun acc p => updateLayer acc p.1 (fun dep => dep.ensure_generated p.2))
      m

/-- The first (demand-cascade) loop of `LayersManager::generate_requirements`:
walk the DAG in `Topo` order, pushing each visited node; demands flow from a
visited layer's current cache to its dependencies. -/
def demandPhase (m : LayersManager) : LayersManager :=
  m.topo.foldl demandVisit m

/-- One generation visit (the body of the `stack.iter().rev()` loop): build
the read-only lookup over the current layers, run `LayerConfig::generate` on
the visited layer, store its updated cache, and extend its delete list.  A
missing delete-list entry panics in the source and is a no-op here. -/
def generateVisit (m : LayersManager) (lid : LayerId) : LayersManager :=
  match getLayer m lid with
  | none => m
  | some cfg =>
    let res := cfg.generate (mkLookup m.layers)
    { m with
      layers := aupdate m.layers lid (fun _ => res.1),
      delete_list := aupdate m.delete_list lid (fun l => l ++ res.2.deleted) }

/-- The second loop of `LayersManager::generate_requirements`: generate in
the exact reverse of the demand-cascade order. -/
def generatePhase (m : LayersManager) : LayersManager :=
  m.topo.reverse.foldl generateVisit m

/-- `LayersManager::generate_requirements` from `layer_manager.rs`. -/
def LayersManager.generate_requirements (m : LayersManager) : LayersManager :=
  generatePhase (demandPhase m)

/-- `LayersManager::regenerate` from `layer_manager.rs` (the tick). -/
def LayersManager.regenerate (m : LayersManager) : LayersManager :=
  LayersManager.generate_requirements
    (LayersManager.check_client_usages
      (LayersManager.clear_deleted (LayersManager.clear_usage m)))

/-- `LayersManager::add_layer_client` from `layer_manager.rs`. -/
def LayersManager.add_layer_client (m : LayersManager) (client : LayerClient) :
    LayersManager :=
  { m with layer_client := m.layer_client ++ [client] }

/-- `LayersManager::get_deleted_chunks` from `layer_manager.rs`. -/
def LayersManager.get_deleted_chunks (m : LayersManager) (lid : LayerId) :
    Option (List ChunkIdx) :=
  alookup m.delete_list lid

-- The builder and its cycle check.

/-- One step of the saturation used to decide graph reachability: add every
edge target whose source is already in the set. -/
def reachExpand (edges : List (LayerId × LayerId)) (s : Finset LayerId) : Finset LayerId :=
  s ∪ ((edges.filter (fun e => decide (e.1 ∈ s))).map Prod.snd).toFinset

/-- All nodes reachable from `a` along `edges` (including `a`), computed by
saturating for `edges.length + 1` rounds, which is enough to reach the fixed
point. -/
def reachSet (edges : List (LayerId × LayerId)) (a : LayerId) : Finset LayerId :=
  (reachExpand edges)^[edges.length + 1] {a}

/-- Decidable reachability along a finite edge list. -/
def reachB (edges : List (LayerId × LayerId)) (a b : LayerId) : Bool :=
  b ∈ reachSet edges a

/-- Decidable cycle test: some edge closes a loop. -/
def hasCycleB (edges : List (LayerId × LayerId)) : Bool :=
  edges.any (fun e => reachB edges e.2 e.1)

/-- The declared dependency edges of a producer list, in the order
`LayersManagerBuilder::build` adds them: one edge from each layer to each of
its declared dependencies. -/
def declaredEdges (layers : List LayerConfig) : List (LayerId × LayerId) :=
  layers.flatMap (fun l => l.depends_on.map (fun d => (l.layer_id, d.layer_id)))

/-- A simple Kahn-style topological sort over the remaining nodes: repeatedly
emit a node with no incoming edge from the rest.  Only used to populate
`LayersManager.topo` for acyclic graphs; its correctness is not load-bearing
for any claim below. -/
def kahnPick (edges : List (LayerId × LayerId)) (rest : List LayerId) : Option LayerId :=
  rest.find? (fun n => !(edges.any (fun e => decide (e.2 = n) && decide (e.1 ∈ rest))))

def kahnSort (edges : List (LayerId × LayerId)) : List LayerId → ℕ → List LayerId
  | _, 0 => []
  | rest, fuel + 1 =>
    match kahnPick edges rest with
    | none => rest
    | some n => n :: kahnSort edges (rest.erase n) fuel

/-- `LayersManagerBuilder::build` from `layer_manager.rs`.  The `daggy::Dag`
is kept acyclic by its library: `add_edges` returns `Err` as soon as an added
edge would close a cycle, which the source turns into a panic via
`.expect(..)`; over the whole edge list this aborts construction exactly when
the declared edge set contains a cycle.  An edge naming an unregistered
dependency panics on `.unwrap()`.  Both aborts are modelled as `none`. -/
def build (layerList : List LayerConfig) : Option LayersManager :=
  let nodes := layerList.map (fun l => l.layer_id)
  let edges := declaredEdges layerList
  if ¬ (∀ e ∈ edges, e.2 ∈ nodes) then none
  else if hasCycleB edges then none
  else some
    { layers := layerList.map (fun l => (l.layer_id, l))
      dag_nodes := nodes
      dag_edges := edges
      topo := kahnSort edges nodes (nodes.length + 1)
      layer_client := []
      delete_list := layerList.map (fun l => (l.layer_id, [])) }

-- Storage abstractions used across the tick proofs.

/-- The key set of the map. -/
def keysFinset (s : Storage) : Finset ChunkIdx := (sKeys s).toFinset

/-- The set of keys whose entry has a non-empty usage counter. -/
def liveFinset (s : Storage) : Finset ChunkIdx :=
  ((s.filter (fun e => !e.2.usage_counter.is_empty)).map Prod.fst).toFinset

theorem mem_keysFinset (s : Storage) (j : ChunkIdx) :
    j ∈ keysFinset s ↔ ∃ w, (j, w) ∈ s := by
  unfold keysFinset sKeys
  simp only [List.mem_toFinset, List.mem_map]
  constructor
  · rintro ⟨e, he, rfl⟩
    exact ⟨e.2, he⟩
  · rintro ⟨w, hw⟩
    exact ⟨(j, w), hw, rfl⟩

theorem mem_liveFinset (s : Storage) (j : ChunkIdx) :
    j ∈ liveFinset s ↔ ∃ w, (j, w) ∈ s ∧ w.usage_counter.is_empty = false := by
  unfold liveFinset
  simp only [List.mem_toFinset, List.mem_map, List.mem_filter]
  constructor
  · rintro ⟨e, ⟨he, hlive⟩, rfl⟩
    exact ⟨e.2, he, by simpa using hlive⟩
  · rintro ⟨w, hw, hlive⟩
    exact ⟨(j, w), ⟨hw, by simpa using hlive⟩, rfl⟩

theorem mem_aupdate {α β : Type} [DecidableEq α]
    (l : List (α × β)) (k : α) (f : β → β) (j : α) (w' : β) :
    (j, w') ∈ aupdate l k f ↔
      ((j ≠ k ∧ (j, w') ∈ l) ∨ (j = k ∧ ∃ w, (j, w) ∈ l ∧ w' = f w)) := by
  unfold aupdate
  simp only [List.mem_map]
  constructor
  · rintro ⟨e, he, hc⟩
    by_cases h : e.1 = k
    · rw [if_pos h] at hc
      cases hc
      exact Or.inr ⟨h, e.2, by simpa using he, rfl⟩
    · rw [if_neg h] at hc
      subst hc
      exact Or.inl ⟨h, he⟩
  · rintro (⟨hne, hmem⟩ | ⟨rfl, w, hmem, rfl⟩)
    · exact ⟨(j, w'), hmem, by simp [hne]⟩
    · exact ⟨(j, w), hmem, by simp⟩

theorem alookup_append {α β : Type} [DecidableEq α] (l₁ l₂ : List (α × β)) (k : α) :
    alookup (l₁ ++ l₂) k =
      match alookup l₁ k with
      | some v => some v
      | none => alookup l₂ k := by
  induction l₁ with
  | nil => simp [alookup]
  | cons e l ih =>
    simp only [List.cons_append, alookup]
    split <;> simp_all

/-- The wrapper stored at a just-ensured index, as a function of what was
there before: a fresh empty wrapper if absent, then a `Fast` increment. -/
def incWrapper (o : Option ChunkWrapper) : ChunkWrapper :=
  match o with
  | some w => { w with usage_counter := w.usage_counter.increment UsageStrategy.fast }
  | none => { ChunkWrapper.new with
      usage_counter := UsageCounter.new.increment UsageStrategy.fast }

theorem keysFinset_aupdate {k : ChunkIdx} {f : ChunkWrapper → ChunkWrapper} (s : Storage) :
    keysFinset (aupdate s k f) = keysFinset s := by
  unfold keysFinset sKeys
  rw [aupdate_map_fst]

theorem alookup_ensureChunk (s : Storage) (i j : ChunkIdx) :
    alookup (ensureChunk s i) j =
      if j = i then some (incWrapper (alookup s i)) else alookup s j := by
  unfold ensureChunk incWrapper
  cases h : alookup s i with
  | some w =>
    simp only [h]
    rw [alookup_aupdate]
    by_cases hj : j = i
    · subst hj
      simp [h]
    · simp [hj]
  | none =>
    simp only [h]
    rw [alookup_aupdate]
    by_cases hj : j = i
    · subst hj
      rw [if_pos rfl, if_pos rfl, alookup_append, h]
      simp [alookup, ChunkWrapper.new]
    · rw [if_neg hj, if_neg hj, alookup_append]
      cases hs : alookup s j with
      | some v => simp
      | none =>
        simp only [alookup]
        rw [if_neg (fun hh => hj hh.symm)]

theorem keysFinset_ensureChunk (s : Storage) (i : ChunkIdx) :
    keysFinset (ensureChunk s i) = insert i (keysFinset s) := by
  unfold ensureChunk
  cases h : alookup s i with
  | some w =>
    simp only [h]
    rw [keysFinset_aupdate]
    have hi : i ∈ keysFinset s := by
      rw [keysFinset, sKeys, List.mem_toFinset, ← alookup_isSome_iff_mem, h]
      rfl
    rw [Finset.insert_eq_self.mpr hi]
  | none =>
    simp only [h]
    rw [keysFinset_aupdate]
    unfold keysFinset sKeys
    simp only [List.map_append, List.map_cons, List.map_nil, List.toFinset_append]
    simp [Finset.union_comm, Finset.insert_eq]

theorem ensureChunk_mem_ne (s : Storage) (i j : ChunkIdx) (w : ChunkWrapper)
    (hj : j ≠ i) : (j, w) ∈ ensureChunk s i ↔ (j, w) ∈ s := by
  unfold ensureChunk
  cases h : alookup s i with
  | some v =>
    simp only [h]
    rw [mem_aupdate]
    simp [hj]
  | none =>
    simp only [h]
    rw [mem_aupdate]
    simp only [List.mem_append, List.mem_cons, List.not_mem_nil, or_false]
    constructor
    · rintro (⟨_, hm | hm⟩ | ⟨he, _⟩)
      · exact hm
      · exact absurd (congrArg Prod.fst hm) hj
      · exact absurd he hj
    · intro hm
      exact Or.inl ⟨hj, Or.inl hm⟩

theorem ensureChunk_mem_self_live (s : Storage) (i : ChunkIdx) (w : ChunkWrapper)
    (hm : (i, w) ∈ ensureChunk s i) : w.usage_counter.is_empty = false := by
  unfold ensureChunk at hm
  rw [mem_aupdate] at hm
  rcases hm with ⟨hne, _⟩ | ⟨_, v, _, rfl⟩
  · exact absurd rfl hne
  · exact is_empty_increment _ _

theorem liveFinset_ensureChunk (s : Storage) (i : ChunkIdx) :
    liveFinset (ensureChunk s i) = insert i (liveFinset s) := by
  ext j
  rw [mem_liveFinset, Finset.mem_insert, mem_liveFinset]
  by_cases hj : j = i
  · subst hj
    constructor
    · intro _
      exact Or.inl rfl
    · intro _
      have hk : j ∈ keysFinset (ensureChunk s j) := by
        rw [keysFinset_ensureChunk]
        exact Finset.mem_insert_self _ _
      rw [mem_keysFinset] at hk
      obtain ⟨w, hw⟩ := hk
      exact ⟨w, hw, ensureChunk_mem_self_live s j w hw⟩
  · constructor
    · rintro ⟨w, hw, hlive⟩
      exact Or.inr ⟨w, (ensureChunk_mem_ne s i j w hj).mp hw, hlive⟩
    · rintro (h | ⟨w, hw, hlive⟩)
      · exact absurd h hj
      · exact ⟨w, (ensureChunk_mem_ne s i j w hj).mpr hw, hlive⟩

theorem sKeys_nodup_ensureChunk (s : Storage) (i : ChunkIdx)
    (hs : (sKeys s).Nodup) : (sKeys (ensureChunk s i)).Nodup := by
  unfold ensureChunk
  cases h : alookup s i with
  | some v =>
    simp only [h]
    unfold sKeys
    rw [aupdate_map_fst]
    exact hs
  | none =>
    simp only [h]
    unfold sKeys
    rw [aupdate_map_fst]
    simp only [List.map_append, List.map_cons, List.map_nil]
    rw [List.nodup_append]
    refine ⟨hs, List.nodup_singleton _, ?_⟩
    intro a ha
    simp only [List.mem_singleton]
    intro hai
    subst hai
    rw [alookup_eq_none_iff] at h
    exact h ha

theorem keysFinset_foldl_ensureChunk (L : List ChunkIdx) (s : Storage) :
    keysFinset (L.foldl ensureChunk s) = keysFinset s ∪ L.toFinset := by
  induction L generalizing s with
  | nil => simp
  | cons a L ih =>
    rw [List.foldl_cons, ih, keysFinset_ensureChunk, List.toFinset_cons]
    ext j
    simp only [Finset.mem_union, Finset.mem_insert]
    tauto

theorem liveFinset_foldl_ensureChunk (L : List ChunkIdx) (s : Storage) :
    liveFinset (L.foldl ensureChunk s) = liveFinset s ∪ L.toFinset := by
  induction L generalizing s with
  | nil => simp
  | cons a L ih =>
    rw [List.foldl_cons, ih, liveFinset_ensureChunk, List.toFinset_cons]
    ext j
    simp only [Finset.mem_union, Finset.mem_insert]
    tauto

theorem sKeys_nodup_foldl_ensureChunk (L : List ChunkIdx) (s : Storage)
    (hs : (sKeys s).Nodup) : (sKeys (L.foldl ensureChunk s)).Nodup := by
  induction L generalizing s with
  | nil => exact hs
  | cons a L ih =>
    rw [List.foldl_cons]
    exact ih _ (sKeys_nodup_ensureChunk s a hs)

theorem alookup_foldl_ensureChunk (L : List ChunkIdx) (s : Storage) (j : ChunkIdx)
    (hL : L.Nodup) :
    alookup (L.foldl ensureChunk s) j =
      if j ∈ L then some (incWrapper (alookup s j)) else alookup s j := by
  induction L generalizing s with
  | nil => simp
  | cons a L ih =>
    rw [List.foldl_cons]
    have hN := (List.nodup_cons.mp hL)
    rw [ih _ hN.2]
    by_cases hja : j = a
    · subst hja
      rw [if_neg hN.1, if_pos (List.mem_cons_self _ _)]
      rw [alookup_ensureChunk, if_pos rfl]
    · rw [alookup_ensureChunk, if_neg hja]
      by_cases hjL : j ∈ L
      · rw [if_pos hjL, if_pos (List.mem_cons_of_mem _ hjL)]
      · rw [if_neg hjL, if_neg (by simp [hja, hjL])]

theorem alookup_ensure_generated (c : LayerConfig) (b : Bounds) (j : ChunkIdx) :
    alookup (c.ensure_generated b).storage j =
      if j ∈ b.chunks c.chunk_size then some (incWrapper (alookup c.storage j))
      else alookup c.storage j := by
  unfold LayerConfig.ensure_generated
  exact alookup_foldl_ensureChunk _ _ _ (chunks_nodup _ _)

-- Lemmas about one `LayerConfig::generate` pass.

theorem alookup_eq_some_iff_mem {α β : Type} [DecidableEq α]
    (l : List (α × β)) (hn : (l.map Prod.fst).Nodup) (k : α) (w : β) :
    alookup l k = some w ↔ (k, w) ∈ l := by
  induction l with
  | nil => simp [alookup]
  | cons e l ih =>
    obtain ⟨a, b⟩ := e
    simp only [List.map_cons, List.nodup_cons] at hn
    simp only [alookup, List.mem_cons]
    by_cases h : a = k
    · subst h
      constructor
      · intro h2
        rw [if_pos rfl] at h2
        cases h2
        exact Or.inl rfl
      · rintro (h2 | hm)
        · injection h2 with h3 h4
          subst h4
          simp
        · exact absurd (List.mem_map_of_mem Prod.fst hm) (by simpa using hn.1)
    · rw [if_neg h, ih hn.2]
      constructor
      · exact Or.inr
      · rintro (he | hm)
        · injection he with h3 h4
          exact absurd h3.symm h
        · exact hm

theorem mem_value_unique {α β : Type} [DecidableEq α]
    (l : List (α × β)) (hn : (l.map Prod.fst).Nodup) (k : α) (w w' : β)
    (h1 : (k, w) ∈ l) (h2 : (k, w') ∈ l) : w = w' := by
  rw [← alookup_eq_some_iff_mem l hn] at h1 h2
  rw [h1] at h2
  cases h2
  rfl

theorem foldl_filter_ne (L : List ChunkIdx) (s : Storage) :
    L.foldl (fun acc idx => acc.filter (fun e => decide (e.1 ≠ idx))) s
      = s.filter (fun e => decide (e.1 ∉ L)) := by
  induction L generalizing s with
  | nil => simp
  | cons a L ih =>
    rw [List.foldl_cons, ih, List.filter_filter]
    congr 1
    funext e
    by_cases h1 : e.1 = a <;> by_cases h2 : e.1 ∈ L <;> simp [h1, h2]

/-- The delete list computed by `LayerConfig::generate`, as a filter. -/
theorem generate_to_delete_eq (s : Storage) :
    (s.filterMap (fun e => if e.2.usage_counter.best_usage = none then some e.1 else none))
      = (s.filter (fun e => e.2.usage_counter.is_empty)).map Prod.fst := by
  induction s with
  | nil => rfl
  | cons e l ih =>
    simp only [List.filterMap_cons, List.filter_cons]
    by_cases h : e.2.usage_counter.best_usage = none
    · rw [if_pos h]
      rw [best_usage_none_iff] at h
      simp [h, ih]
    · rw [if_neg h]
      have h' : e.2.usage_counter.is_empty = false := by
        cases hb : e.2.usage_counter.is_empty
        · rfl
        · exact absurd ((best_usage_none_iff _).mpr hb) h
      simp [h', ih]

theorem generate_deleted_mem (c : LayerConfig) (lookup : LayerLookup) (idx : ChunkIdx) :
    idx ∈ (c.generate lookup).2.deleted ↔
      ∃ w, (idx, w) ∈ c.storage ∧ w.usage_counter.is_empty = true := by
  show idx ∈ c.storage.filterMap _ ↔ _
  rw [generate_to_delete_eq]
  simp only [List.mem_map, List.mem_filter]
  constructor
  · rintro ⟨e, ⟨he, hemp⟩, rfl⟩
    exact ⟨e.2, he, hemp⟩
  · rintro ⟨w, hw, hemp⟩
    exact ⟨(idx, w), ⟨hw, hemp⟩, rfl⟩

theorem generate_deleted_nodup (c : LayerConfig) (lookup : LayerLookup)
    (hn : (sKeys c.storage).Nodup) : (c.generate lookup).2.deleted.Nodup := by
  show (c.storage.filterMap _).Nodup
  rw [generate_to_delete_eq]
  exact List.Nodup.sublist (List.Sublist.map Prod.fst (List.filter_sublist _)) hn

theorem generate_storage_eq (c : LayerConfig) (lookup : LayerLookup) :
    (c.generate lookup).1.storage =
      (c.storage.map (fun e => (e.1, generateWrapper (c.generator lookup) e.1 e.2))).filter
        (fun e =>
          decide (e.1 ∉ c.storage.filterMap
            (fun e2 => if e2.2.usage_counter.best_usage = none then some e2.1 else none))) := by
  show (c.storage.filterMap _).foldl _ _ = _
  rw [foldl_filter_ne]

theorem alookup_map_value_dep {α β : Type} [DecidableEq α]
    (l : List (α × β)) (f : α → β → β) (k : α) :
    alookup (l.map (fun e => (e.1, f e.1 e.2))) k = (alookup l k).map (f k) := by
  induction l with
  | nil => rfl
  | cons e l ih =>
    simp only [List.map_cons, alookup]
    by_cases h : e.1 = k
    · subst h
      simp
    · rw [if_neg h, if_neg h, ih]

theorem map_fst_map_value_dep {α β : Type} [DecidableEq α]
    (l : List (α × β)) (f : α → β → β) :
    (l.map (fun e => (e.1, f e.1 e.2))).map Prod.fst = l.map Prod.fst := by
  rw [List.map_map]
  rfl

theorem alookup_filter {α β : Type} [DecidableEq α]
    (l : List (α × β)) (hn : (l.map Prod.fst).Nodup) (q : α × β → Bool) (k : α) :
    alookup (l.filter q) k =
      match alookup l k with
      | none => none
      | some w => if q (k, w) then some w else none := by
  induction l with
  | nil => rfl
  | cons e l ih =>
    obtain ⟨a, b⟩ := e
    simp only [List.map_cons, List.nodup_cons] at hn
    by_cases h : a = k
    · subst h
      have hnone : alookup l a = none := by
        rw [alookup_eq_none_iff]
        simpa using hn.1
      simp only [alookup, if_pos rfl, List.filter_cons]
      by_cases hq : q (a, b) = true
      · rw [if_pos hq]
        simp [alookup, hq]
      · rw [if_neg hq]
        rw [ih hn.2, hnone]
        simp only [Bool.not_eq_true] at hq
        simp [hq]
    · simp only [alookup, if_neg h, List.filter_cons]
      by_cases hq : q (a, b) = true
      · rw [if_pos hq]
        simp only [alookup, if_neg h]
        exact ih hn.2
      · rw [if_neg hq]
        exact ih hn.2

theorem generate_alookup (c : LayerConfig) (lookup : LayerLookup)
    (hn : (sKeys c.storage).Nodup) (idx : ChunkIdx) :
    alookup (c.generate lookup).1.storage idx =
      match alookup c.storage idx with
      | none => none
      | some w =>
        if w.usage_counter.is_empty then none
        else some (generateWrapper (c.generator lookup) idx w) := by
  rw [generate_storage_eq]
  rw [alookup_filter _ (by rw [map_fst_map_value_dep]; exact hn)]
  rw [alookup_map_value_dep]
  cases hw : alookup c.storage idx with
  | none => rfl
  | some w =>
    rw [Option.map_some']
    have hdel : (idx ∈ c.storage.filterMap
        (fun e2 => if e2.2.usage_counter.best_usage = none then some e2.1 else none)) ↔
        w.usage_counter.is_empty = true := by
      rw [show (c.storage.filterMap
          (fun e2 => if e2.2.usage_counter.best_usage = none then some e2.1 else none))
          = (c.generate lookup).2.deleted from rfl]
      rw [generate_deleted_mem]
      constructor
      · rintro ⟨w', hw', hemp⟩
        have := mem_value_unique c.storage hn idx w w'
          ((alookup_eq_some_iff_mem _ hn _ _).mp hw) hw'
        rw [this]
        exact hemp
      · intro hemp
        exact ⟨w, (alookup_eq_some_iff_mem _ hn _ _).mp hw, hemp⟩
    by_cases hemp : w.usage_counter.is_empty = true
    · have hin := hdel.mpr hemp
      simp [hemp, hin]
    · have hnin : idx ∉ c.storage.filterMap
          (fun e2 => if e2.2.usage_counter.best_usage = none then some e2.1 else none) :=
        fun hmem => hemp (hdel.mp hmem)
      simp [hemp, hnin]

theorem generate_keysFinset (c : LayerConfig) (lookup : LayerLookup)
    (hn : (sKeys c.storage).Nodup) :
    keysFinset (c.generate lookup).1.storage = liveFinset c.storage := by
  ext j
  rw [mem_liveFinset]
  rw [keysFinset, sKeys, List.mem_toFinset, ← alookup_isSome_iff_mem]
  rw [generate_alookup c lookup hn j]
  cases hw : alookup c.storage j with
  | none =>
    simp only [Option.isSome_none, Bool.false_eq_true, false_iff]
    rintro ⟨w, hm, _⟩
    rw [← alookup_eq_some_iff_mem _ hn] at hm
    rw [hw] at hm
    cases hm
  | some w =>
    by_cases hemp : w.usage_counter.is_empty = true
    · simp only [if_pos hemp, Option.isSome_none, Bool.false_eq_true, false_iff]
      rintro ⟨w', hm, hlive⟩
      rw [← alookup_eq_some_iff_mem _ hn, hw] at hm
      cases hm
      rw [hemp] at hlive
      cases hlive
    · simp only [if_neg hemp, Option.isSome_some, true_iff]
      exact ⟨w, (alookup_eq_some_iff_mem _ hn _ _).mp hw,
        by simpa using hemp⟩

theorem generate_sKeys_nodup (c : LayerConfig) (lookup : LayerLookup)
    (hn : (sKeys c.storage).Nodup) :
    (sKeys (c.generate lookup).1.storage).Nodup := by
  rw [generate_storage_eq]
  unfold sKeys
  refine List.Nodup.sublist (List.Sublist.map Prod.fst (List.filter_sublist _)) ?_
  rw [map_fst_map_value_dep]
  exact hn

/-- C7: for every chunk index and every cell size with positive components,
converting the index to the center point of its cell (`ChunkIdx::center`)
and converting that point back with `ChunkIdx::from_point` yields the same
index. -/
theorem c7_center_roundtrip (i : ChunkIdx) (s : Point)
    (hx : 0 < s.x) (hy : 0 < s.y) :
    ChunkIdx.from_point (i.center s) s.x s.y = i := by
  unfold ChunkIdx.center ChunkIdx.from_point
  have hx' : s.x ≠ 0 := ne_of_gt hx
  have hy' : s.y ≠ 0 := ne_of_gt hy
  have h1 : ((i.x : ℚ) * s.x + s.x / 2) / s.x = (i.x : ℚ) + 1 / 2 := by
    field_simp
    ring
  have h2 : ((i.y : ℚ) * s.y + s.y / 2) / s.y = (i.y : ℚ) + 1 / 2 := by
    field_simp
    ring
  simp only [h1, h2, Int.floor_int_add]
  norm_num

/-- C7 witness: the round trip at index (3, -2) with cell size (1, 2). -/
theorem c7_center_roundtrip_witness :
    (0 : ℚ) < 1 ∧ (0 : ℚ) < 2 ∧
      ChunkIdx.from_point ((ChunkIdx.mk 3 (-2)).center ⟨1, 2⟩) 1 2 = ChunkIdx.mk 3 (-2) :=
  ⟨by norm_num, by norm_num,
    c7_center_roundtrip (ChunkIdx.mk 3 (-2)) ⟨1, 2⟩ (by norm_num) (by norm_num)⟩

/-- C3 counterexample: with cell size (1,1) and the degenerate bounds at the
point (1/2, 1/2), the enumeration `Bounds::chunks` produces the index (1,1)
even though that index's cell rectangle [1,2]x[1,2] does not intersect the
bounds, so the enumeration is not exactly the set of intersecting indices. -/
theorem c3_counterexample :
    (0 : ℚ) < 1 ∧
    ChunkIdx.mk 1 1 ∈
      (Bounds.mk ⟨1/2, 1/2⟩ ⟨1/2, 1/2⟩).chunks ⟨1, 1⟩ ∧
    ¬ rectsIntersect ((ChunkIdx.mk 1 1).to_bounds 1 1)
        (Bounds.mk ⟨1/2, 1/2⟩ ⟨1/2, 1/2⟩) := by
  refine ⟨by norm_num, ?_, ?_⟩
  · rw [chunks_mem]
    norm_num
  · unfold rectsIntersect ChunkIdx.to_bounds
    norm_num

/-- C3 amended: for positive cell sizes, `Bounds::chunks` yields, without
duplicates, exactly the indices of the inclusive integer box from
`floor(min/cell)` to `ceil(max/cell)` in each axis (a set that can both
include indices whose cells do not touch the bounds and omit boundary-touching
indices below the floor of the minimum). -/
theorem c3_chunks_box (b : Bounds) (s : Point) (hx : 0 < s.x) (hy : 0 < s.y) :
    (b.chunks s).Nodup ∧
    ∀ i : ChunkIdx, i ∈ b.chunks s ↔
      (⌊b.min.x / s.x⌋ ≤ i.x ∧ i.x ≤ ⌈b.max.x / s.x⌉ ∧
       ⌊b.min.y / s.y⌋ ≤ i.y ∧ i.y ≤ ⌈b.max.y / s.y⌉) :=
  ⟨chunks_nodup b s, fun i => chunks_mem b s i⟩

/-- C3 amended witness: the box characterisation applied at the bounds
[0,1]x[0,1] with cell size (1,1). -/
theorem c3_chunks_box_witness :
    (0 : ℚ) < 1 ∧
    (((Bounds.mk ⟨0, 0⟩ ⟨1, 1⟩).chunks ⟨1, 1⟩).Nodup ∧
     ∀ i : ChunkIdx, i ∈ (Bounds.mk ⟨0, 0⟩ ⟨1, 1⟩).chunks ⟨1, 1⟩ ↔
       (⌊(0 : ℚ) / 1⌋ ≤ i.x ∧ i.x ≤ ⌈(1 : ℚ) / 1⌉ ∧
        ⌊(0 : ℚ) / 1⌋ ≤ i.y ∧ i.y ≤ ⌈(1 : ℚ) / 1⌉)) :=
  ⟨by norm_num, c3_chunks_box (Bounds.mk ⟨0, 0⟩ ⟨1, 1⟩) ⟨1, 1⟩ (by norm_num) (by norm_num)⟩

/-- C10: `ensure_generated` never removes a cache entry and never modifies a
stored payload.  For every index: an existing entry keeps its payload
exactly, with its usage counter incremented precisely when the index is
covered by the demanded bounds; an absent entry is created fresh and empty
(counter incremented from zero) exactly when the index is covered, and stays
absent otherwise. -/
theorem c10_ensure_frame (c : LayerConfig) (b : Bounds) (j : ChunkIdx) :
    (∀ w, alookup c.storage j = some w →
        alookup (c.ensure_generated b).storage j =
          some { chunk := w.chunk,
                 usage_counter :=
                   if j ∈ b.chunks c.chunk_size
                   then w.usage_counter.increment UsageStrategy.fast
                   else w.usage_counter }) ∧
    (alookup c.storage j = none →
        alookup (c.ensure_generated b).storage j =
          if j ∈ b.chunks c.chunk_size
          then some { chunk := none,
                      usage_counter := UsageCounter.new.increment UsageStrategy.fast }
          else none) := by
  constructor
  · intro w hw
    rw [alookup_ensure_generated, hw]
    by_cases hj : j ∈ b.chunks c.chunk_size
    · rw [if_pos hj, if_pos hj]
      rfl
    · rw [if_neg hj, if_neg hj]
  · intro hw
    rw [alookup_ensure_generated, hw]
    by_cases hj : j ∈ b.chunks c.chunk_size
    · rw [if_pos hj, if_pos hj]
      rfl
    · rw [if_neg hj, if_neg hj]

/-- A one-layer configuration with a single stale cached entry, used as the
concrete input of several witnesses. -/
def wLayer : LayerConfig :=
  { layer_id := 0
    depends_on := []
    chunk_size := ⟨1, 1⟩
    storage := [(⟨0, 0⟩, ⟨none, ⟨0, 0, 0⟩⟩)]
    generator := fun _ idx => ⟨7, idx.x + idx.y⟩ }

/-- C10 witness: the frame property applied to `wLayer` at the degenerate
bounds of the point (0, 0) for the present index (0,0) and for one absent
index. -/
theorem c10_ensure_frame_witness :
    (alookup wLayer.storage ⟨0, 0⟩ = some ⟨none, ⟨0, 0, 0⟩⟩ ∧
      alookup (wLayer.ensure_generated (Bounds.mk ⟨0, 0⟩ ⟨0, 0⟩)).storage ⟨0, 0⟩ =
        some { chunk := none,
               usage_counter :=
                 if ChunkIdx.mk 0 0 ∈ (Bounds.mk ⟨0, 0⟩ ⟨0, 0⟩).chunks wLayer.chunk_size
                 then UsageCounter.clear ⟨0, 0, 0⟩ |>.increment UsageStrategy.fast
                 else ⟨0, 0, 0⟩ }) ∧
    (alookup wLayer.storage ⟨5, 5⟩ = none ∧
      alookup (wLayer.ensure_generated (Bounds.mk ⟨0, 0⟩ ⟨0, 0⟩)).storage ⟨5, 5⟩ =
        if ChunkIdx.mk 5 5 ∈ (Bounds.mk ⟨0, 0⟩ ⟨0, 0⟩).chunks wLayer.chunk_size
        then some { chunk := none,
                    usage_counter := UsageCounter.new.increment UsageStrategy.fast }
        else none) :=
  ⟨⟨rfl, (c10_ensure_frame wLayer (Bounds.mk ⟨0, 0⟩ ⟨0, 0⟩) ⟨0, 0⟩).1 _ rfl⟩,
   ⟨rfl, (c10_ensure_frame wLayer (Bounds.mk ⟨0, 0⟩ ⟨0, 0⟩) ⟨5, 5⟩).2 rfl⟩⟩

/-- C8: repeating an identical `ensure_generated` call leaves the cache with
exactly the same key set as calling it once, and creates no duplicate
entries. -/
theorem c8_ensure_idempotent_keys (c : LayerConfig) (b : Bounds)
    (hn : (sKeys c.storage).Nodup) :
    keysFinset ((c.ensure_generated b).ensure_generated b).storage
      = keysFinset (c.ensure_generated b).storage ∧
    (sKeys ((c.ensure_generated b).ensure_generated b).storage).Nodup := by
  constructor
  · have h1 : keysFinset (c.ensure_generated b).storage
        = keysFinset c.storage ∪ (b.chunks c.chunk_size).toFinset :=
      keysFinset_foldl_ensureChunk _ _
    have h2 : keysFinset ((c.ensure_generated b).ensure_generated b).storage
        = keysFinset (c.ensure_generated b).storage ∪ (b.chunks c.chunk_size).toFinset :=
      keysFinset_foldl_ensureChunk _ _
    rw [h2, h1, Finset.union_assoc, Finset.union_idempotent]
  · exact sKeys_nodup_foldl_ensureChunk _ _ (sKeys_nodup_foldl_ensureChunk _ _ hn)

/-- C8 witness: idempotence of the entry set on `wLayer` at the unit square
bounds. -/
theorem c8_ensure_idempotent_keys_witness :
    (sKeys wLayer.storage).Nodup ∧
    (keysFinset ((wLayer.ensure_generated (Bounds.mk ⟨0, 0⟩ ⟨1, 1⟩)).ensure_generated
          (Bounds.mk ⟨0, 0⟩ ⟨1, 1⟩)).storage
        = keysFinset (wLayer.ensure_generated (Bounds.mk ⟨0, 0⟩ ⟨1, 1⟩)).storage ∧
      (sKeys ((wLayer.ensure_generated (Bounds.mk ⟨0, 0⟩ ⟨1, 1⟩)).ensure_generated
          (Bounds.mk ⟨0, 0⟩ ⟨1, 1⟩)).storage).Nodup) :=
  ⟨by simp [wLayer, sKeys],
   c8_ensure_idempotent_keys wLayer (Bounds.mk ⟨0, 0⟩ ⟨1, 1⟩) (by simp [wLayer, sKeys])⟩

/-- C4: during one `LayerConfig::generate` pass, an entry whose best usage is
`Fast` with no payload receives the generator's output for `(lookup, index)`;
an entry at tier `Slow` or `KeepAlive` is left exactly as it was (no
generation) and is not evicted; an entry with no tier (all counters zero) is
removed from the map and its index is reported exactly once in the pass's
eviction report. -/
theorem c4_generate_cases (c : LayerConfig) (lookup : LayerLookup)
    (hn : (sKeys c.storage).Nodup) (idx : ChunkIdx) (w : ChunkWrapper)
    (hw : alookup c.storage idx = some w) :
    (w.usage_counter.best_usage = some UsageStrategy.fast → w.chunk = none →
        alookup (c.generate lookup).1.storage idx =
          some ⟨some (c.generator lookup idx), w.usage_counter⟩) ∧
    ((w.usage_counter.best_usage = some UsageStrategy.slow ∨
      w.usage_counter.best_usage = some UsageStrategy.keepAlive) →
        alookup (c.generate lookup).1.storage idx = some w ∧
        idx ∉ (c.generate lookup).2.deleted) ∧
    (w.usage_counter.best_usage = none →
        alookup (c.generate lookup).1.storage idx = none ∧
        (c.generate lookup).2.deleted.count idx = 1) := by
  have hne : ∀ u, w.usage_counter.best_usage = some u →
      w.usage_counter.is_empty = false := by
    intro u hu
    cases hb : w.usage_counter.is_empty
    · rfl
    · rw [(best_usage_none_iff _).mpr hb] at hu
      cases hu
  refine ⟨?_, ?_, ?_⟩
  · intro hfast hchunk
    rw [generate_alookup c lookup hn idx, hw]
    dsimp only
    rw [if_neg (by rw [hne _ hfast]; simp)]
    unfold generateWrapper
    rw [hfast, hchunk]
    rfl
  · intro htier
    constructor
    · have hb : w.usage_counter.is_empty = false := by
        rcases htier with h | h
        · exact hne _ h
        · exact hne _ h
      rw [generate_alookup c lookup hn idx, hw]
      dsimp only
      rw [if_neg (by rw [hb]; simp)]
      unfold generateWrapper
      rcases htier with h | h <;> rw [h]
    · intro hmem
      rw [generate_deleted_mem] at hmem
      obtain ⟨w', hw', hemp⟩ := hmem
      have := mem_value_unique c.storage hn idx w w'
        ((alookup_eq_some_iff_mem _ hn _ _).mp hw) hw'
      subst this
      have hb : w.usage_counter.is_empty = false := by
        rcases htier with h | h
        · exact hne _ h
        · exact hne _ h
      rw [hb] at hemp
      cases hemp
  · intro hnone
    have hemp : w.usage_counter.is_empty = true := (best_usage_none_iff _).mp hnone
    constructor
    · rw [generate_alookup c lookup hn idx, hw]
      dsimp only
      rw [if_pos hemp]
    · refine List.count_eq_one_of_mem (generate_deleted_nodup c lookup hn) ?_
      rw [generate_deleted_mem]
      exact ⟨w, (alookup_eq_some_iff_mem _ hn _ _).mp hw, hemp⟩

/-- A three-entry layer exercising all three `generate` cases: a `Fast`
reserved entry, a `Slow` reserved entry, and a zero-usage entry. -/
def c4Layer : LayerConfig :=
  { layer_id := 0
    depends_on := []
    chunk_size := ⟨1, 1⟩
    storage := [(⟨0, 0⟩, ⟨none, ⟨0, 0, 1⟩⟩), (⟨1, 0⟩, ⟨none, ⟨0, 1, 0⟩⟩),
                (⟨2, 0⟩, ⟨none, ⟨0, 0, 0⟩⟩)]
    generator := fun _ idx => ⟨7, idx.x⟩ }

/-- An empty read-only view for the witnesses. -/
def emptyLookup : LayerLookup := fun _ _ => none

/-- C4 witness: the three cases applied to `c4Layer` under the empty
lookup. -/
theorem c4_generate_cases_witness :
    ((sKeys c4Layer.storage).Nodup ∧
      alookup c4Layer.storage ⟨0, 0⟩ = some ⟨none, ⟨0, 0, 1⟩⟩ ∧
      alookup c4Layer.storage ⟨1, 0⟩ = some ⟨none, ⟨0, 1, 0⟩⟩ ∧
      alookup c4Layer.storage ⟨2, 0⟩ = some ⟨none, ⟨0, 0, 0⟩⟩) ∧
    alookup (c4Layer.generate emptyLookup).1.storage ⟨0, 0⟩ =
      some ⟨some (c4Layer.generator emptyLookup ⟨0, 0⟩), ⟨0, 0, 1⟩⟩ ∧
    alookup (c4Layer.generate emptyLookup).1.storage ⟨1, 0⟩ = some ⟨none, ⟨0, 1, 0⟩⟩ ∧
    (⟨1, 0⟩ : ChunkIdx) ∉ (c4Layer.generate emptyLookup).2.deleted ∧
    alookup (c4Layer.generate emptyLookup).1.storage ⟨2, 0⟩ = none ∧
    (c4Layer.generate emptyLookup).2.deleted.count ⟨2, 0⟩ = 1 := by
  have hn : (sKeys c4Layer.storage).Nodup := by decide
  have h1 := (c4_generate_cases c4Layer emptyLookup hn ⟨0, 0⟩ ⟨none, ⟨0, 0, 1⟩⟩ rfl).1
    rfl rfl
  have h2 := (c4_generate_cases c4Layer emptyLookup hn ⟨1, 0⟩ ⟨none, ⟨0, 1, 0⟩⟩ rfl).2.1
    (Or.inl rfl)
  have h3 := (c4_generate_cases c4Layer emptyLookup hn ⟨2, 0⟩ ⟨none, ⟨0, 0, 0⟩⟩ rfl).2.2
    rfl
  exact ⟨⟨hn, rfl, rfl, rfl⟩, h1, h2.1, h2.2, h3.1, h3.2⟩

/-- C9: `LayersManager::get_chunk` (and the cross-producer lookup used during
generation) returns a payload precisely when the chunk index containing the
queried point has an entry whose payload is present and whose runtime type is
the requested one; a missing entry, a reserved entry with no payload, or a
payload of a different runtime type all yield `none`, and a returned value is
always exactly the stored one, never a coercion. -/
theorem c9_get_chunk_typed (m : LayersManager) (tag : ℕ) (lid : LayerId)
    (pos : Point) (cfg : LayerConfig) (h : getLayer m lid = some cfg) (v : ℤ) :
    (m.get_chunk tag lid pos = some v ↔
      ∃ w, alookup cfg.storage
          (ChunkIdx.from_point pos cfg.chunk_size.x cfg.chunk_size.y) = some w ∧
        ∃ d, w.chunk = some d ∧ d.ty = tag ∧ d.val = v) ∧
    ∀ size : Point,
      lookupGetChunk m.layers tag lid size pos = some v ↔
        ∃ w, alookup cfg.storage (ChunkIdx.from_point pos size.x size.y) = some w ∧
          ∃ d, w.chunk = some d ∧ d.ty = tag ∧ d.val = v := by
  constructor
  · unfold LayersManager.get_chunk
    rw [h]
    dsimp only
    cases ha : alookup cfg.storage
        (ChunkIdx.from_point pos cfg.chunk_size.x cfg.chunk_size.y) with
    | none => simp
    | some w =>
      simp only [Option.some_bind]
      unfold ChunkWrapper.get_chunk
      cases hc : w.chunk with
      | none => simp [hc]
      | some d =>
        simp only [Option.some_bind]
        unfold DynChunk.downcast
        by_cases ht : d.ty = tag
        · rw [if_pos ht]
          simp only [Option.some_inj]
          constructor
          · rintro rfl
            exact ⟨w, rfl, d, hc, ht, rfl⟩
          · rintro ⟨w', hw', d', hd', ht', hv'⟩
            cases hw'
            rw [hc] at hd'
            cases hd'
            exact hv'
        · rw [if_neg ht]
          simp only [false_iff, reduceCtorEq]
          rintro ⟨w', hw', d', hd', ht', hv'⟩
          cases hw'
          rw [hc] at hd'
          cases hd'
          exact ht ht'
  · intro size
    unfold lookupGetChunk mkLookup
    rw [show alookup m.layers lid = some cfg from h]
    dsimp only
    cases ha : alookup cfg.storage (ChunkIdx.from_point pos size.x size.y) with
    | none => simp
    | some w =>
      simp only [Option.some_bind]
      cases hc : w.chunk with
      | none => simp [hc]
      | some d =>
        simp only [Option.some_bind]
        unfold DynChunk.downcast
        by_cases ht : d.ty = tag
        · rw [if_pos ht]
          simp only [Option.some_inj]
          constructor
          · rintro rfl
            exact ⟨w, rfl, d, hc, ht, rfl⟩
          · rintro ⟨w', hw', d', hd', ht', hv'⟩
            cases hw'
            rw [hc] at hd'
            cases hd'
            exact hv'
        · rw [if_neg ht]
          simp only [false_iff, reduceCtorEq]
          rintro ⟨w', hw', d', hd', ht', hv'⟩
          cases hw'
          rw [hc] at hd'
          cases hd'
          exact ht ht'

/-- A layer holding one generated payload with runtime type identifier 7. -/
def c9Layer : LayerConfig :=
  { layer_id := 0
    depends_on := []
    chunk_size := ⟨1, 1⟩
    storage := [(⟨0, 0⟩, ⟨some ⟨7, 42⟩, ⟨0, 0, 1⟩⟩)]
    generator := fun _ _ => ⟨7, 0⟩ }

/-- A one-layer manager for the typed-lookup witness. -/
def c9Manager : LayersManager :=
  { layers := [(0, c9Layer)]
    dag_nodes := [0]
    dag_edges := []
    topo := [0]
    layer_client := []
    delete_list := [(0, [])] }

/-- C9 witness: the typed-lookup characterisation applied to `c9Manager` for
the stored value 42 of runtime type 7. -/
theorem c9_get_chunk_typed_witness :
    getLayer c9Manager 0 = some c9Layer ∧
    ((c9Manager.get_chunk 7 0 ⟨0, 0⟩ = some 42 ↔
      ∃ w, alookup c9Layer.storage
          (ChunkIdx.from_point ⟨0, 0⟩ c9Layer.chunk_size.x c9Layer.chunk_size.y) = some w ∧
        ∃ d, w.chunk = some d ∧ d.ty = 7 ∧ d.val = 42) ∧
     ∀ size : Point,
       lookupGetChunk c9Manager.layers 7 0 size ⟨0, 0⟩ = some 42 ↔
         ∃ w, alookup c9Layer.storage (ChunkIdx.from_point ⟨0, 0⟩ size.x size.y) = some w ∧
           ∃ d, w.chunk = some d ∧ d.ty = 7 ∧ d.val = 42) :=
  ⟨rfl, c9_get_chunk_typed c9Manager 7 0 ⟨0, 0⟩ c9Layer rfl 42⟩

/-- An empty one-layer manager driven by a single `Slow`-tier client, the
failing input for the usage-tier claim. -/
def c5Layer : LayerConfig :=
  { layer_id := 0
    depends_on := []
    chunk_size := ⟨1, 1⟩
    storage := []
    generator := fun _ _ => ⟨0, 0⟩ }

def c5Client : LayerClient := LayerClient.new ⟨0, 0⟩ [⟨0, ⟨0, 0⟩⟩] UsageStrategy.slow

def c5Manager : LayersManager :=
  { layers := [(0, c5Layer)]
    dag_nodes := [0]
    dag_edges := []
    topo := [0]
    layer_client := [c5Client]
    delete_list := [(0, [])] }

/-- C5 evaluation at the failing input: a single active demand source with
tier `Slow` registers demand through `check_client_usages`, yet the touched
entry's counter comes out as `(keep_alive, slow, fast) = (0, 0, 1)` — the
`Fast` count was incremented, not the `Slow` count, because
`ensure_generated` takes no tier argument and always increments
`UsageStrategy::Fast`. -/
theorem c5_tier_ignored :
    c5Client.strategy = UsageStrategy.slow ∧
    (getLayer c5Manager.check_client_usages 0).map
        (fun cfg => (alookup cfg.storage ⟨0, 0⟩).map ChunkWrapper.usage_counter)
      = some (some ⟨0, 0, 1⟩) := by
  refine ⟨rfl, ?_⟩
  have hstep : c5Manager.check_client_usages =
      updateLayer c5Manager 0
        (fun layer => layer.ensure_generated
          ((Bounds.from_point c5Client.center).add_padding ⟨0, 0⟩)) := rfl
  rw [hstep]
  simp only [updateLayer, getLayer]
  rw [alookup_aupdate]
  rw [if_pos rfl]
  have hl : alookup c5Manager.layers 0 = some c5Layer := rfl
  rw [hl]
  simp only [Option.map_some']
  have hmem : ChunkIdx.mk 0 0 ∈
      ((Bounds.from_point c5Client.center).add_padding ⟨0, 0⟩).chunks c5Layer.chunk_size := by
    rw [chunks_mem]
    show ⌊((0 : ℚ) - 0) / 1⌋ ≤ 0 ∧ 0 ≤ ⌈((0 : ℚ) + 0) / 1⌉ ∧
      ⌊((0 : ℚ) - 0) / 1⌋ ≤ 0 ∧ 0 ≤ ⌈((0 : ℚ) + 0) / 1⌉
    norm_num
  rw [show (alookup ((c5Layer.ensure_generated
      ((Bounds.from_point c5Client.center).add_padding ⟨0, 0⟩)).storage) ⟨0, 0⟩)
      = some (incWrapper (alookup c5Layer.storage ⟨0, 0⟩)) from by
    rw [alookup_ensure_generated]
    rw [if_pos hmem]]
  rfl

-- Reachability facts for the cycle check.

theorem subset_reachExpand (E : List (LayerId × LayerId)) (s : Finset LayerId) :
    s ⊆ reachExpand E s :=
  Finset.subset_union_left

theorem reachExpand_mem_of_edge (E : List (LayerId × LayerId)) (s : Finset LayerId)
    (x y : LayerId) (hx : x ∈ s) (he : (x, y) ∈ E) : y ∈ reachExpand E s := by
  unfold reachExpand
  refine Finset.mem_union_right _ ?_
  rw [List.mem_toFinset]
  exact List.mem_map_of_mem Prod.snd (List.mem_filter.mpr ⟨he, by simpa using hx⟩)

theorem reachExpand_subset (E : List (LayerId × LayerId)) (a : LayerId)
    (s : Finset LayerId) (hs : s ⊆ insert a (E.map Prod.snd).toFinset) :
    reachExpand E s ⊆ insert a (E.map Prod.snd).toFinset := by
  unfold reachExpand
  refine Finset.union_subset hs ?_
  intro y hy
  rw [List.mem_toFinset] at hy
  obtain ⟨e, he, rfl⟩ := List.mem_map.mp hy
  refine Finset.mem_insert_of_mem ?_
  rw [List.mem_toFinset]
  exact List.mem_map_of_mem Prod.snd (List.mem_filter.mp he).1

theorem reachIter_subset (E : List (LayerId × LayerId)) (a : LayerId) (n : ℕ) :
    (reachExpand E)^[n] {a} ⊆ insert a (E.map Prod.snd).toFinset := by
  induction n with
  | zero =>
    intro x hx
    rw [Function.iterate_zero_apply] at hx
    rw [Finset.mem_singleton] at hx
    subst hx
    exact Finset.mem_insert_self _ _
  | succ n ih =>
    rw [Function.iterate_succ_apply']
    exact reachExpand_subset E a _ ih

theorem reachIter_mono (E : List (LayerId × LayerId)) (a : LayerId) (n : ℕ) :
    (reachExpand E)^[n] {a} ⊆ (reachExpand E)^[n + 1] {a} := by
  rw [Function.iterate_succ_apply']
  exact subset_reachExpand E _

theorem reachSet_fix (E : List (LayerId × LayerId)) (a : LayerId) :
    reachExpand E (reachSet E a) = reachSet E a := by
  by_cases hex : ∃ n, n < E.length + 1 ∧
      (reachExpand E)^[n + 1] {a} = (reachExpand E)^[n] {a}
  · obtain ⟨n, hn, hfixn⟩ := hex
    have hconst : ∀ m, (reachExpand E)^[n + m] {a} = (reachExpand E)^[n] {a} := by
      intro m
      induction m with
      | zero => rfl
      | succ m ih =>
        rw [show n + (m + 1) = (n + m) + 1 from by omega,
          Function.iterate_succ_apply', ih]
        exact (Function.iterate_succ_apply' _ _ _).symm.trans hfixn
    have hNn : reachSet E a = (reachExpand E)^[n] {a} := by
      have h2 := hconst (E.length + 1 - n)
      rw [show n + (E.length + 1 - n) = E.length + 1 from by omega] at h2
      exact h2
    show reachExpand E (reachSet E a) = reachSet E a
    rw [hNn]
    exact (Function.iterate_succ_apply' _ _ _).symm.trans hfixn
  · push_neg at hex
    exfalso
    have hgrow : ∀ n, n ≤ E.length + 1 → n + 1 ≤ ((reachExpand E)^[n] {a}).card := by
      intro n
      induction n with
      | zero =>
        intro _
        simp
      | succ n ih =>
        intro hn
        have h1 : (reachExpand E)^[n] {a} ⊂ (reachExpand E)^[n + 1] {a} :=
          ssubset_of_subset_of_ne (reachIter_mono E a n) (Ne.symm (hex n (by omega)))
        have h2 := Finset.card_lt_card h1
        have h3 := ih (by omega)
        omega
    have hcard := hgrow (E.length + 1) (le_refl _)
    have hsub := Finset.card_le_card (reachIter_subset E a (E.length + 1))
    have hU : (insert a (E.map Prod.snd).toFinset).card ≤ E.length + 1 := by
      refine le_trans (Finset.card_insert_le _ _) ?_
      have h4 := List.toFinset_card_le (E.map Prod.snd)
      rw [List.length_map] at h4
      omega
    unfold reachSet at hcard
    omega

theorem mem_reachSet_self (E : List (LayerId × LayerId)) (a : LayerId) :
    a ∈ reachSet E a := by
  unfold reachSet
  have : ∀ n, a ∈ (reachExpand E)^[n] {a} := by
    intro n
    induction n with
    | zero => simp
    | succ n ih =>
      rw [Function.iterate_succ_apply']
      exact subset_reachExpand E _ ih
  exact this _

theorem reachSet_closed (E : List (LayerId × LayerId)) (a x y : LayerId)
    (hx : x ∈ reachSet E a) (he : (x, y) ∈ E) : y ∈ reachSet E a := by
  rw [← reachSet_fix]
  exact reachExpand_mem_of_edge E _ x y hx he

theorem mem_reachSet_of_rtg (E : List (LayerId × LayerId)) (a b : LayerId)
    (h : Relation.ReflTransGen (fun u v => (u, v) ∈ E) a b) :
    b ∈ reachSet E a := by
  induction h with
  | refl => exact mem_reachSet_self E a
  | tail h1 h2 ih => exact reachSet_closed E a _ _ ih h2

theorem hasCycleB_complete (E : List (LayerId × LayerId)) (x : LayerId)
    (h : Relation.TransGen (fun u v => (u, v) ∈ E) x x) : hasCycleB E = true := by
  rw [hasCycleB, List.any_eq_true]
  cases h with
  | single h1 =>
    refine ⟨(x, x), h1, ?_⟩
    rw [reachB]
    simpa using mem_reachSet_self E x
  | tail h' h1 =>
    rename_i c
    refine ⟨(c, x), h1, ?_⟩
    rw [reachB]
    simpa using mem_reachSet_of_rtg E x c h'.to_reflTransGen

/-- C6: building the manager from a producer list in which some producer
directly or transitively depends on itself aborts: `daggy` refuses the edge
that closes the cycle, the source's `.expect(..)` panics, and no manager is
produced. -/
theorem c6_cycle_build_fails (layerList : List LayerConfig) (p : LayerId)
    (h : Relation.TransGen (fun u v => (u, v) ∈ declaredEdges layerList) p p) :
    build layerList = none := by
  unfold build
  by_cases hreg : ∀ e ∈ declaredEdges layerList, e.2 ∈ layerList.map (fun l => l.layer_id)
  · rw [if_neg (by simpa using hreg)]
    rw [if_pos]
    exact hasCycleB_complete _ p h
  · rw [if_pos (by simpa using hreg)]

/-- Two producers that depend on each other, closing a dependency cycle. -/
def c6LayerA : LayerConfig :=
  { layer_id := 0
    depends_on := [⟨1, ⟨0, 0⟩⟩]
    chunk_size := ⟨1, 1⟩
    storage := []
    generator := fun _ _ => ⟨0, 0⟩ }

def c6LayerB : LayerConfig :=
  { layer_id := 1
    depends_on := [⟨0, ⟨0, 0⟩⟩]
    chunk_size := ⟨1, 1⟩
    storage := []
    generator := fun _ _ => ⟨0, 0⟩ }

/-- C6 witness: the two-producer cycle 0 -> 1 -> 0 makes `build` fail. -/
theorem c6_cycle_build_fails_witness :
    Relation.TransGen (fun u v => (u, v) ∈ declaredEdges [c6LayerA, c6LayerB]) 0 0 ∧
    build [c6LayerA, c6LayerB] = none := by
  have hedges : declaredEdges [c6LayerA, c6LayerB] = [(0, 1), (1, 0)] := rfl
  have htg : Relation.TransGen
      (fun u v => (u, v) ∈ declaredEdges [c6LayerA, c6LayerB]) 0 0 := by
    have h01 : ((0 : LayerId), (1 : LayerId)) ∈ declaredEdges [c6LayerA, c6LayerB] := by
      rw [hedges]
      simp
    have h10 : ((1 : LayerId), (0 : LayerId)) ∈ declaredEdges [c6LayerA, c6LayerB] := by
      rw [hedges]
      simp
    exact Relation.TransGen.tail (Relation.TransGen.single h01) h10
  exact ⟨htg, c6_cycle_build_fails [c6LayerA, c6LayerB] 0 htg⟩

-- Specification-side demand collector: replays the tick's demand
-- registration (step 2 and the step-3 cascade) accumulating, for each
-- producer, the chunk indices demanded for it (as lists with set meaning).

/-- Per-producer demanded indices accumulated during one tick. -/
abbrev Demands := LayerId → List ChunkIdx

def noDemands : Demands := fun _ => []

/-- Record demanded indices for one producer. -/
def addD (D : Demands) (lid : LayerId) (X : List ChunkIdx) : Demands :=
  fun l => if l = lid then D l ++ X else D l

/-- The indices covered by one `ensure_generated(bounds)` call on a target
producer (empty when the target is unregistered, in which case the source
panics and the model call is a no-op). -/
def coveredList (m : LayersManager) (lid : LayerId) (b : Bounds) : List ChunkIdx :=
  match getLayer m lid with
  | none => []
  | some cfg => b.chunks cfg.chunk_size

def applyCallD (m : LayersManager) (D : Demands) (p : LayerId × Bounds) : Demands :=
  addD D p.1 (coveredList m p.1 p.2)

def applyCallsD (m : LayersManager) (pairs : List (LayerId × Bounds)) (D : Demands) :
    Demands :=
  pairs.foldl (applyCallD m) D

/-- The demand calls issued by step 2 for a client list. -/
def clientPairs (clients : List LayerClient) : List (LayerId × Bounds) :=
  clients.flatMap (fun c =>
    if c.active then
      c.dependencies.map
        (fun dep => (dep.layer_id, (Bounds.from_point c.center).add_padding dep.padding))
    else [])

/-- One step-3 visit of the collector: the visited producer's footprint is
its pre-tick key list joined with everything demanded for it so far. -/
def cascadeStepD (m : LayersManager) (D : Demands) (lid : LayerId) : Demands :=
  match getLayer m lid with
  | none => D
  | some cfg =>
    applyCallsD m
      (requiresFrom cfg.depends_on cfg.chunk_size (sKeys cfg.storage ++ D lid)) D

/-- All demand registered during one tick of `m`, per producer: the active
clients' direct demands followed by the cascade along the traversal order. -/
def tickDemanded (m : LayersManager) : Demands :=
  m.topo.foldl (cascadeStepD m) (applyCallsD m (clientPairs m.layer_client) noDemands)

/-- The concatenation, over the calls of a pair list that target `l`, of
their covered index lists. -/
def pairsUnion (m : LayersManager) (pairs : List (LayerId × Bounds)) (l : LayerId) :
    List ChunkIdx :=
  pairs.foldr (fun p acc => (if p.1 = l then coveredList m p.1 p.2 else []) ++ acc) []

theorem applyCallsD_eq (m : LayersManager) (pairs : List (LayerId × Bounds))
    (D : Demands) (l : LayerId) :
    applyCallsD m pairs D l = D l ++ pairsUnion m pairs l := by
  induction pairs generalizing D with
  | nil => simp [applyCallsD, pairsUnion]
  | cons p ps ih =>
    show applyCallsD m ps (applyCallD m D p) l = _
    rw [ih]
    unfold pairsUnion
    rw [List.foldr_cons]
    unfold applyCallD addD
    by_cases h : l = p.1
    · subst h
      rw [if_pos rfl, if_pos rfl, List.append_assoc]
    · rw [if_neg h, if_neg (fun hh => h hh.symm), List.nil_append]

theorem pairsUnion_mem (m : LayersManager) (pairs : List (LayerId × Bounds))
    (l : LayerId) (x : ChunkIdx) :
    x ∈ pairsUnion m pairs l ↔ ∃ p ∈ pairs, p.1 = l ∧ x ∈ coveredList m p.1 p.2 := by
  induction pairs with
  | nil => simp [pairsUnion]
  | cons p ps ih =>
    unfold pairsUnion at *
    rw [List.foldr_cons, List.mem_append, ih]
    by_cases h : p.1 = l
    · rw [if_pos h]
      constructor
      · rintro (hx | ⟨q, hq, hql, hqx⟩)
        · exact ⟨p, List.mem_cons_self _ _, h, hx⟩
        · exact ⟨q, List.mem_cons_of_mem _ hq, hql, hqx⟩
      · rintro ⟨q, hq, hql, hqx⟩
        rcases List.mem_cons.mp hq with rfl | hq'
        · exact Or.inl hqx
        · exact Or.inr ⟨q, hq', hql, hqx⟩
    · rw [if_neg h]
      simp only [List.not_mem_nil, false_or]
      constructor
      · rintro ⟨q, hq, hql, hqx⟩
        exact ⟨q, List.mem_cons_of_mem _ hq, hql, hqx⟩
      · rintro ⟨q, hq, hql, hqx⟩
        rcases List.mem_cons.mp hq with rfl | hq'
        · exact absurd hql h
        · exact ⟨q, hq', hql, hqx⟩

theorem pairsUnion_congr (m : LayersManager) (pairsA pairsB : List (LayerId × Bounds))
    (h : ∀ p, p ∈ pairsA ↔ p ∈ pairsB) (l : LayerId) (x : ChunkIdx) :
    x ∈ pairsUnion m pairsA l ↔ x ∈ pairsUnion m pairsB l := by
  rw [pairsUnion_mem, pairsUnion_mem]
  constructor
  · rintro ⟨p, hp, h1, h2⟩
    exact ⟨p, (h p).mp hp, h1, h2⟩
  · rintro ⟨p, hp, h1, h2⟩
    exact ⟨p, (h p).mpr hp, h1, h2⟩

theorem requiresFrom_mem (deps : List Dependency) (cs : Point) (idxs : List ChunkIdx)
    (p : LayerId × Bounds) :
    p ∈ requiresFrom deps cs idxs ↔
      ∃ idx ∈ idxs, ∃ dep ∈ deps,
        p = (dep.layer_id, (idx.to_bounds cs.x cs.y).add_padding dep.padding) := by
  unfold requiresFrom
  simp only [List.mem_flatMap, List.mem_map]
  constructor
  · rintro ⟨idx, hidx, dep, hdep, rfl⟩
    exact ⟨idx, hidx, dep, hdep, rfl⟩
  · rintro ⟨idx, hidx, dep, hdep, rfl⟩
    exact ⟨idx, hidx, dep, hdep, rfl⟩

/-- Simulation invariant of the demand registration: `cur` is the pre-tick
manager `m0` (with cleared usage) after some demand calls whose per-producer
demanded indices are collected in `D`.  Cache keys grow by exactly the
demanded set, live (non-empty-counter) keys are the demanded set on top of
the baseline, and configuration data never changes. -/
def LayerSim (D : Demands) (m0 cur : LayersManager) : Prop :=
  cur.topo = m0.topo ∧
  cur.layer_client = m0.layer_client ∧
  cur.delete_list = m0.delete_list ∧
  cur.layers.map Prod.fst = m0.layers.map Prod.fst ∧
  ∀ lid cfg0, getLayer m0 lid = some cfg0 →
    ∃ cfg, getLayer cur lid = some cfg ∧
      cfg.chunk_size = cfg0.chunk_size ∧
      cfg.depends_on = cfg0.depends_on ∧
      cfg.generator = cfg0.generator ∧
      keysFinset cfg.storage = keysFinset cfg0.storage ∪ (D lid).toFinset ∧
      liveFinset cfg.storage = liveFinset cfg0.storage ∪ (D lid).toFinset ∧
      ((sKeys cfg0.storage).Nodup → (sKeys cfg.storage).Nodup)

theorem LayerSim_refl (m0 : LayersManager) : LayerSim noDemands m0 m0 := by
  refine ⟨rfl, rfl, rfl, rfl, ?_⟩
  intro lid cfg0 h
  exact ⟨cfg0, h, rfl, rfl, rfl, by simp [noDemands], by simp [noDemands], id⟩

theorem LayerSim_congr (m0 cur : LayersManager) (D1 D2 : Demands)
    (hD : ∀ l, (D1 l).toFinset = (D2 l).toFinset)
    (h : LayerSim D1 m0 cur) : LayerSim D2 m0 cur := by
  obtain ⟨h1, h2, h3, h4, h5⟩ := h
  refine ⟨h1, h2, h3, h4, ?_⟩
  intro lid cfg0 h0
  obtain ⟨cfg, hc, ha, hb, hg, hk, hl, hn⟩ := h5 lid cfg0 h0
  exact ⟨cfg, hc, ha, hb, hg, by rw [hk, hD], by rw [hl, hD], hn⟩

theorem LayerSim_applyCall (m0 cur : LayersManager) (D : Demands)
    (p : LayerId × Bounds) (h : LayerSim D m0 cur) :
    LayerSim (applyCallD m0 D p) m0
      (updateLayer cur p.1 (fun dep => dep.ensure_generated p.2)) := by
  obtain ⟨h1, h2, h3, h4, h5⟩ := h
  refine ⟨h1, h2, h3, ?_, ?_⟩
  · unfold updateLayer
    dsimp only
    rw [aupdate_map_fst]
    exact h4
  · intro lid cfg0 h0
    obtain ⟨cfg, hc, ha, hb, hg, hk, hl, hn⟩ := h5 lid cfg0 h0
    by_cases hlid : lid = p.1
    · subst hlid
      have hcov : (applyCallD m0 D p) p.1 = D p.1 ++ p.2.chunks cfg0.chunk_size := by
        unfold applyCallD addD coveredList
        rw [if_pos rfl, getLayer] at *
        rw [h0]
      refine ⟨cfg.ensure_generated p.2, ?_, ha, hb, hg, ?_, ?_, ?_⟩
      · unfold getLayer updateLayer
        dsimp only
        rw [alookup_aupdate, if_pos rfl,
          show alookup cur.layers p.1 = some cfg from hc]
        rfl
      · have hkeys2 : keysFinset (cfg.ensure_generated p.2).storage
            = keysFinset cfg.storage ∪ (p.2.chunks cfg.chunk_size).toFinset :=
          keysFinset_foldl_ensureChunk _ _
        rw [hkeys2, hk, hcov, List.toFinset_append, ha, Finset.union_assoc]
      · have hlive2 : liveFinset (cfg.ensure_generated p.2).storage
            = liveFinset cfg.storage ∪ (p.2.chunks cfg.chunk_size).toFinset :=
          liveFinset_foldl_ensureChunk _ _
        rw [hlive2, hl, hcov, List.toFinset_append, ha, Finset.union_assoc]
      · intro hnd
        exact sKeys_nodup_foldl_ensureChunk _ _ (hn hnd)
    · have hD : (applyCallD m0 D p) lid = D lid := by
        unfold applyCallD addD
        rw [if_neg hlid]
      refine ⟨cfg, ?_, ha, hb, hg, by rw [hD]; exact hk, by rw [hD]; exact hl, hn⟩
      unfold getLayer updateLayer
      dsimp only
      rw [alookup_aupdate, if_neg hlid]
      exact hc

theorem LayerSim_applyCalls (m0 : LayersManager) (pairs : List (LayerId × Bounds)) :
    ∀ (cur : LayersManager) (D : Demands), LayerSim D m0 cur →
      LayerSim (applyCallsD m0 pairs D) m0
        (pairs.foldl
          (fun acc p => updateLayer acc p.1 (fun dep => dep.ensure_generated p.2)) cur) := by
  induction pairs with
  | nil => exact fun cur D h => h
  | cons p ps ih =>
    intro cur D h
    exact ih _ _ (LayerSim_applyCall m0 cur D p h)

theorem getLayer_none_of_sim (m0 cur : LayersManager)
    (h4 : cur.layers.map Prod.fst = m0.layers.map Prod.fst)
    (lid : LayerId) (h : getLayer m0 lid = none) : getLayer cur lid = none := by
  rw [getLayer, alookup_eq_none_iff] at *
  rw [h4]
  exact h

theorem LayerSim_demandVisit (m0 cur : LayersManager) (D : Demands) (lid : LayerId)
    (h : LayerSim D m0 cur) :
    LayerSim (cascadeStepD m0 D lid) m0 (demandVisit cur lid) := by
  cases h0 : getLayer m0 lid with
  | none =>
    have hcur : getLayer cur lid = none := getLayer_none_of_sim m0 cur h.2.2.2.1 lid h0
    unfold demandVisit cascadeStepD
    rw [h0, hcur]
    exact h
  | some cfg0 =>
    obtain ⟨cfg, hc, ha, hb, hg, hk, hl, hn⟩ := h.2.2.2.2 lid cfg0 h0
    unfold demandVisit cascadeStepD
    rw [h0, hc]
    dsimp only
    have hsim := LayerSim_applyCalls m0 cfg.requires cur D h
    refine LayerSim_congr m0 _ _ _ ?_ hsim
    intro l
    rw [applyCallsD_eq, applyCallsD_eq, List.toFinset_append, List.toFinset_append]
    have hidxeq : ∀ idx : ChunkIdx,
        idx ∈ sKeys cfg.storage ↔ idx ∈ (sKeys cfg0.storage ++ D lid) := by
      intro idx
      have h1 : idx ∈ sKeys cfg.storage ↔ idx ∈ keysFinset cfg.storage :=
        (List.mem_toFinset).symm
      have h2 : idx ∈ sKeys cfg0.storage ↔ idx ∈ keysFinset cfg0.storage :=
        (List.mem_toFinset).symm
      rw [h1, hk, Finset.mem_union, List.mem_append, List.mem_toFinset, ← h2]
    have hmemeq : ∀ p, p ∈ cfg.requires ↔
        p ∈ requiresFrom cfg0.depends_on cfg0.chunk_size (sKeys cfg0.storage ++ D lid) := by
      intro p
      rw [LayerConfig.requires, requiresFrom_mem, requiresFrom_mem]
      constructor
      · rintro ⟨idx, hidx, dep, hdep, rfl⟩
        exact ⟨idx, (hidxeq idx).mp hidx, dep, hb ▸ hdep, by rw [ha]⟩
      · rintro ⟨idx, hidx, dep, hdep, rfl⟩
        exact ⟨idx, (hidxeq idx).mpr hidx, dep, hb.symm ▸ hdep, by rw [ha]⟩
    have hPU : ∀ x, x ∈ pairsUnion m0 cfg.requires l ↔
        x ∈ pairsUnion m0
          (requiresFrom cfg0.depends_on cfg0.chunk_size (sKeys cfg0.storage ++ D lid)) l :=
      fun x => pairsUnion_congr m0 _ _ hmemeq l x
    congr 1
    ext x
    rw [List.mem_toFinset, List.mem_toFinset]
    exact hPU x

theorem LayerSim_demandFold (m0 : LayersManager) (ord : List LayerId) :
    ∀ (cur : LayersManager) (D : Demands), LayerSim D m0 cur →
      LayerSim (ord.foldl (cascadeStepD m0) D) m0 (ord.foldl demandVisit cur) := by
  induction ord with
  | nil => exact fun cur D h => h
  | cons lid ord ih =>
    intro cur D h
    exact ih _ _ (LayerSim_demandVisit m0 cur D lid h)

theorem check_client_usages_eq (m : LayersManager) :
    m.check_client_usages =
      (clientPairs m.layer_client).foldl
        (fun acc p => updateLayer acc p.1 (fun dep => dep.ensure_generated p.2)) m := by
  suffices hgen : ∀ (cs : List LayerClient) (acc : LayersManager),
      cs.foldl
        (fun acc client =>
          if client.active then
            client.dependencies.foldl
              (fun acc2 dep =>
                updateLayer acc2 dep.layer_id
                  (fun layer => layer.ensure_generated
                    ((Bounds.from_point client.center).add_padding dep.padding)))
              acc
          else acc)
        acc
      = (clientPairs cs).foldl
          (fun acc p => updateLayer acc p.1 (fun dep => dep.ensure_generated p.2)) acc by
    exact hgen m.layer_client m
  intro cs
  induction cs with
  | nil => intro acc; rfl
  | cons c cs ih =>
    intro acc
    rw [List.foldl_cons]
    rw [show clientPairs (c :: cs)
        = (if c.active then
             c.dependencies.map
               (fun dep => (dep.layer_id, (Bounds.from_point c.center).add_padding dep.padding))
           else []) ++ clientPairs cs from List.flatMap_cons _ _ _]
    rw [List.foldl_append]
    by_cases hact : c.active
    · rw [if_pos hact, if_pos hact, List.foldl_map]
      exact ih _
    · rw [if_neg hact, if_neg hact]
      exact ih _

-- Relating the cleared baseline manager to the pre-tick manager.

theorem clear_usage_layers (m : LayersManager) (lid : LayerId) :
    getLayer (((m.clear_usage).clear_deleted)) lid
      = (getLayer m lid).map LayerConfig.clear_usage := by
  show alookup (m.layers.map (fun e => (e.1, e.2.clear_usage))) lid = _
  exact alookup_map_value m.layers LayerConfig.clear_usage lid

theorem sKeys_clearStorage (s : Storage) : sKeys (clearStorage s) = sKeys s := by
  unfold sKeys clearStorage
  rw [List.map_map]
  rfl

theorem keysFinset_clearStorage (s : Storage) :
    keysFinset (clearStorage s) = keysFinset s := by
  unfold keysFinset
  rw [sKeys_clearStorage]

theorem liveFinset_clearStorage (s : Storage) : liveFinset (clearStorage s) = ∅ := by
  unfold liveFinset
  have hnil : (clearStorage s).filter (fun e => !e.2.usage_counter.is_empty) = [] := by
    rw [List.filter_eq_nil_iff]
    intro e he
    obtain ⟨e0, _, rfl⟩ := List.mem_map.mp he
    simp [UsageCounter.clear, UsageCounter.is_empty]
  rw [hnil]
  rfl

theorem coveredList_clear (m : LayersManager) (l : LayerId) (b : Bounds) :
    coveredList (((m.clear_usage).clear_deleted)) l b = coveredList m l b := by
  unfold coveredList
  rw [clear_usage_layers]
  cases getLayer m l with
  | none => rfl
  | some cfg => rfl

theorem pairsUnion_clear (m : LayersManager) (pairs : List (LayerId × Bounds))
    (l : LayerId) :
    pairsUnion (((m.clear_usage).clear_deleted)) pairs l = pairsUnion m pairs l := by
  induction pairs with
  | nil => rfl
  | cons p ps ih =>
    unfold pairsUnion at *
    rw [List.foldr_cons, List.foldr_cons, ih, coveredList_clear]

theorem applyCallsD_clear (m : LayersManager) (pairs : List (LayerId × Bounds))
    (D1 D2 : Demands) (hD : ∀ l, D1 l = D2 l) (l : LayerId) :
    applyCallsD (((m.clear_usage).clear_deleted)) pairs D1 l = applyCallsD m pairs D2 l := by
  rw [applyCallsD_eq, applyCallsD_eq, hD, pairsUnion_clear]

theorem cascadeStepD_clear (m : LayersManager) (D1 D2 : Demands)
    (hD : ∀ l, D1 l = D2 l) (lid l : LayerId) :
    cascadeStepD (((m.clear_usage).clear_deleted)) D1 lid l
      = cascadeStepD m D2 lid l := by
  unfold cascadeStepD
  rw [clear_usage_layers]
  cases getLayer m lid with
  | none =>
    exact hD l
  | some cfg =>
    dsimp only [Option.map_some']
    rw [show (LayerConfig.clear_usage cfg).storage = clearStorage cfg.storage from rfl]
    rw [show (LayerConfig.clear_usage cfg).depends_on = cfg.depends_on from rfl]
    rw [show (LayerConfig.clear_usage cfg).chunk_size = cfg.chunk_size from rfl]
    rw [sKeys_clearStorage, hD]
    exact applyCallsD_clear m _ D1 D2 hD l

theorem demandFoldD_clear (m : LayersManager) (ord : List LayerId) :
    ∀ (D1 D2 : Demands), (∀ l, D1 l = D2 l) →
      ∀ l, ord.foldl (cascadeStepD (((m.clear_usage).clear_deleted))) D1 l
        = ord.foldl (cascadeStepD m) D2 l := by
  induction ord with
  | nil => exact fun D1 D2 hD l => hD l
  | cons lid ord ih =>
    intro D1 D2 hD l
    exact ih _ _ (fun l2 => cascadeStepD_clear m D1 D2 hD lid l2) l

/-- The manager state at the end of step 3 of the tick (usage cleared,
eviction reports cleared, client demand registered, cascade complete). -/
def midState (m : LayersManager) : LayersManager :=
  demandPhase (((m.clear_usage).clear_deleted).check_client_usages)

theorem regenerate_decomp (m : LayersManager) :
    m.regenerate = generatePhase (midState m) := rfl

theorem midState_sim (m : LayersManager) :
    LayerSim (tickDemanded m) ((m.clear_usage).clear_deleted) (midState m) := by
  set mb := (m.clear_usage).clear_deleted with hmb
  have hbase : LayerSim noDemands mb mb := LayerSim_refl mb
  have hclients : LayerSim (applyCallsD mb (clientPairs mb.layer_client) noDemands) mb
      mb.check_client_usages := by
    rw [check_client_usages_eq]
    exact LayerSim_applyCalls mb _ mb noDemands hbase
  have htopo : mb.check_client_usages.topo = mb.topo := hclients.1
  have hsim2 : LayerSim
      (mb.topo.foldl (cascadeStepD mb) (applyCallsD mb (clientPairs mb.layer_client) noDemands))
      mb (midState m) := by
    show LayerSim _ mb (demandPhase mb.check_client_usages)
    unfold demandPhase
    rw [htopo]
    exact LayerSim_demandFold mb mb.topo mb.check_client_usages _ hclients
  refine LayerSim_congr mb (midState m) _ _ ?_ hsim2
  intro l
  have hply : ∀ l2, applyCallsD mb (clientPairs mb.layer_client) noDemands l2
      = applyCallsD m (clientPairs m.layer_client) noDemands l2 := by
    intro l2
    have hcl : mb.layer_client = m.layer_client := rfl
    rw [hcl]
    exact applyCallsD_clear m _ noDemands noDemands (fun _ => rfl) l2
  have htopoeq : mb.topo = m.topo := rfl
  rw [show (mb.topo.foldl (cascadeStepD mb)
      (applyCallsD mb (clientPairs mb.layer_client) noDemands)) l
      = tickDemanded m l from by
    rw [htopoeq]
    exact demandFoldD_clear m m.topo _ _ hply l]

-- Generation-phase characterisation.

theorem generateVisit_frame (m : LayersManager) (lid lid' : LayerId) (h : lid' ≠ lid) :
    getLayer (generateVisit m lid) lid' = getLayer m lid' ∧
    alookup (generateVisit m lid).delete_list lid' = alookup m.delete_list lid' := by
  unfold generateVisit
  cases hg : getLayer m lid with
  | none => exact ⟨rfl, rfl⟩
  | some cfg =>
    dsimp only
    constructor
    · unfold getLayer
      dsimp only
      rw [alookup_aupdate, if_neg h]
    · dsimp only
      rw [alookup_aupdate, if_neg h]

theorem generateVisit_self (m : LayersManager) (lid : LayerId) (cfg : LayerConfig)
    (h : getLayer m lid = some cfg) :
    getLayer (generateVisit m lid) lid = some ((cfg.generate (mkLookup m.layers)).1) ∧
    alookup (generateVisit m lid).delete_list lid =
      (alookup m.delete_list lid).map
        (fun dl0 => dl0 ++ (cfg.generate (mkLookup m.layers)).2.deleted) := by
  unfold generateVisit
  rw [h]
  dsimp only
  constructor
  · unfold getLayer
    dsimp only
    rw [alookup_aupdate, if_pos rfl, show alookup m.layers lid = some cfg from h]
    rfl
  · dsimp only
    rw [alookup_aupdate, if_pos rfl]

theorem generateFold_frame (L : List LayerId) (lid : LayerId) (h : lid ∉ L) :
    ∀ m : LayersManager,
      getLayer (L.foldl generateVisit m) lid = getLayer m lid ∧
      alookup (L.foldl generateVisit m).delete_list lid = alookup m.delete_list lid := by
  induction L with
  | nil => exact fun m => ⟨rfl, rfl⟩
  | cons a L ih =>
    intro m
    have hna : lid ≠ a := fun hh => h (hh ▸ List.mem_cons_self _ _)
    have hnl : lid ∉ L := fun hh => h (List.mem_cons_of_mem _ hh)
    rw [List.foldl_cons]
    obtain ⟨h1, h2⟩ := ih hnl (generateVisit m a)
    obtain ⟨h3, h4⟩ := generateVisit_frame m a lid hna
    exact ⟨h1.trans h3, h2.trans h4⟩

theorem generateFold_char (L : List LayerId) (hnd : L.Nodup) (lid : LayerId)
    (hmem : lid ∈ L) :
    ∀ (m : LayersManager) (cfg : LayerConfig), getLayer m lid = some cfg →
      ∃ lk, getLayer (L.foldl generateVisit m) lid = some ((cfg.generate lk).1) ∧
        alookup (L.foldl generateVisit m).delete_list lid =
          (alookup m.delete_list lid).map
            (fun dl0 => dl0 ++ (cfg.generate lk).2.deleted) := by
  induction L with
  | nil => cases hmem
  | cons a L ih =>
    intro m cfg h
    rw [List.foldl_cons]
    rcases List.mem_cons.mp hmem with rfl | hmem'
    · have hnl : lid ∉ L := (List.nodup_cons.mp hnd).1
      obtain ⟨h1, h2⟩ := generateVisit_self m lid cfg h
      obtain ⟨h3, h4⟩ := generateFold_frame L lid hnl (generateVisit m lid)
      exact ⟨mkLookup m.layers, h3.trans h1, h4.trans h2⟩
    · have hna : lid ≠ a := by
        rintro rfl
        exact (List.nodup_cons.mp hnd).1 hmem'
      obtain ⟨h3, h4⟩ := generateVisit_frame m a lid hna
      obtain ⟨lk, h5, h6⟩ := ih (List.nodup_cons.mp hnd).2 hmem' (generateVisit m a) cfg
        (h3.trans h)
      refine ⟨lk, h5, ?_⟩
      rw [h6, h4]

theorem mem_keys_not_live_iff (s : Storage) (hn : (sKeys s).Nodup) (idx : ChunkIdx) :
    (∃ w, (idx, w) ∈ s ∧ w.usage_counter.is_empty = true) ↔
      (idx ∈ keysFinset s ∧ idx ∉ liveFinset s) := by
  constructor
  · rintro ⟨w, hw, he⟩
    refine ⟨(mem_keysFinset s idx).mpr ⟨w, hw⟩, ?_⟩
    rw [mem_liveFinset]
    rintro ⟨w', hw', hlive⟩
    have heq := mem_value_unique s hn idx w w' hw hw'
    subst heq
    rw [he] at hlive
    cases hlive
  · rintro ⟨hk, hnl⟩
    obtain ⟨w, hw⟩ := (mem_keysFinset s idx).mp hk
    refine ⟨w, hw, ?_⟩
    cases hemp : w.usage_counter.is_empty with
    | false => exact absurd ((mem_liveFinset s idx).mpr ⟨w, hw, hemp⟩) hnl
    | true => rfl

/-- Well-formedness of a manager state: distinct producer ids, a traversal
order that visits every registered producer exactly once, an eviction-report
slot for every producer, and duplicate-free cache key lists.  Managers built
by `LayersManagerBuilder::build` satisfy all of it. -/
def Wellformed (m : LayersManager) : Prop :=
  (m.layers.map Prod.fst).Nodup ∧
  m.topo.Nodup ∧
  (∀ e ∈ m.layers, e.1 ∈ m.topo) ∧
  (∀ e ∈ m.layers, e.1 ∈ m.delete_list.map Prod.fst) ∧
  (∀ e ∈ m.layers, (sKeys e.2.storage).Nodup)

instance (m : LayersManager) : Decidable (Wellformed m) := by
  unfold Wellformed
  infer_instance

/-- C1: after one tick, a producer's cache holds exactly the indices demanded
for it in that tick (directly by an active demand source or transitively
through the dependency cascade, as collected by `tickDemanded`), and the
tick's eviction report lists exactly once each index that was cached before
the tick but not re-demanded, none of which survive in the cache. -/
theorem c1_tick_eviction_exactness (m : LayersManager) (hwf : Wellformed m)
    (lid : LayerId) (cfg0 : LayerConfig) (h : getLayer m lid = some cfg0) :
    ∃ cfg', getLayer m.regenerate lid = some cfg' ∧
      keysFinset cfg'.storage = (tickDemanded m lid).toFinset ∧
      ∃ report, alookup m.regenerate.delete_list lid = some report ∧
        report.Nodup ∧
        (∀ idx, idx ∈ report ↔
          (idx ∈ keysFinset cfg0.storage ∧ idx ∉ (tickDemanded m lid).toFinset)) ∧
        (∀ idx ∈ report, idx ∉ keysFinset cfg'.storage) := by
  have hsim := midState_sim m
  have hmem : (lid, cfg0) ∈ m.layers :=
    (alookup_eq_some_iff_mem m.layers hwf.1 lid cfg0).mp h
  have hb : getLayer ((m.clear_usage).clear_deleted) lid = some (cfg0.clear_usage) := by
    rw [clear_usage_layers, h]
    rfl
  obtain ⟨cfgM, hcM, haM, hbM, hgM, hkM, hlM, hnM⟩ := hsim.2.2.2.2 lid _ hb
  have hkeys0 : keysFinset (cfg0.clear_usage).storage = keysFinset cfg0.storage :=
    keysFinset_clearStorage _
  have hlive0 : liveFinset (cfg0.clear_usage).storage = ∅ := liveFinset_clearStorage _
  have hnd0 : (sKeys cfg0.storage).Nodup := hwf.2.2.2.2 (lid, cfg0) hmem
  have hndb : (sKeys (cfg0.clear_usage).storage).Nodup := by
    rw [show (cfg0.clear_usage).storage = clearStorage cfg0.storage from rfl,
      sKeys_clearStorage]
    exact hnd0
  have hndM : (sKeys cfgM.storage).Nodup := hnM hndb
  have hkM' : keysFinset cfgM.storage
      = keysFinset cfg0.storage ∪ (tickDemanded m lid).toFinset := by
    rw [hkM, hkeys0]
  have hlM' : liveFinset cfgM.storage = (tickDemanded m lid).toFinset := by
    rw [hlM, hlive0, Finset.empty_union]
  have htopomem : lid ∈ m.topo := hwf.2.2.1 (lid, cfg0) hmem
  have htopoMid : (midState m).topo = m.topo := hsim.1
  have hndL : (midState m).topo.reverse.Nodup := by
    rw [htopoMid]
    exact List.nodup_reverse.mpr hwf.2.1
  have hmemL : lid ∈ (midState m).topo.reverse := by
    rw [htopoMid]
    exact List.mem_reverse.mpr htopomem
  obtain ⟨lk, hres1, hres2⟩ := generateFold_char _ hndL lid hmemL (midState m) cfgM hcM
  have hreg : m.regenerate = (midState m).topo.reverse.foldl generateVisit (midState m) :=
    rfl
  refine ⟨(cfgM.generate lk).1, by rw [hreg]; exact hres1, ?_, ?_⟩
  · rw [generate_keysFinset cfgM lk hndM, hlM']
  · have hdmid : (midState m).delete_list = ((m.clear_usage).clear_deleted).delete_list :=
      hsim.2.2.1
    have hdb : alookup ((m.clear_usage).clear_deleted).delete_list lid = some [] := by
      show alookup (m.delete_list.map (fun e => (e.1, ([] : List ChunkIdx)))) lid = some []
      rw [show alookup (m.delete_list.map (fun e => (e.1, ([] : List ChunkIdx)))) lid
            = (alookup m.delete_list lid).map (fun _ => ([] : List ChunkIdx))
          from alookup_map_value m.delete_list (fun _ => ([] : List ChunkIdx)) lid]
      have hex : lid ∈ m.delete_list.map Prod.fst := hwf.2.2.2.1 (lid, cfg0) hmem
      rw [← alookup_isSome_iff_mem] at hex
      cases hx : alookup m.delete_list lid with
      | none => rw [hx] at hex; cases hex
      | some dl0 => rfl
    refine ⟨(cfgM.generate lk).2.deleted, ?_, generate_deleted_nodup cfgM lk hndM, ?_, ?_⟩
    · rw [hreg, hres2, hdmid, hdb]
      rfl
    · intro idx
      rw [generate_deleted_mem, mem_keys_not_live_iff cfgM.storage hndM idx, hkM', hlM']
      constructor
      · rintro ⟨hk, hnl⟩
        rcases Finset.mem_union.mp hk with h1 | h1
        · exact ⟨h1, hnl⟩
        · exact absurd h1 hnl
      · rintro ⟨h1, h2⟩
        exact ⟨Finset.mem_union_left _ h1, h2⟩
    · intro idx hidx
      rw [generate_keysFinset cfgM lk hndM, hlM']
      rw [generate_deleted_mem, mem_keys_not_live_iff cfgM.storage hndM idx, hlM'] at hidx
      exact hidx.2

/-- A one-producer manager with one stale cached entry and one active `Fast`
demand source, used as the concrete C1 input. -/
def c1Layer : LayerConfig :=
  { layer_id := 0
    depends_on := []
    chunk_size := ⟨1, 1⟩
    storage := [(⟨9, 9⟩, ⟨none, ⟨0, 0, 1⟩⟩)]
    generator := fun _ idx => ⟨3, idx.x⟩ }

def c1Manager : LayersManager :=
  { layers := [(0, c1Layer)]
    dag_nodes := [0]
    dag_edges := []
    topo := [0]
    layer_client := [LayerClient.new ⟨0, 0⟩ [⟨0, ⟨0, 0⟩⟩] UsageStrategy.fast]
    delete_list := [(0, [])] }

/-- C1 witness: tick exactness applied to `c1Manager` at producer 0. -/
theorem c1_tick_eviction_exactness_witness :
    Wellformed c1Manager ∧
    (∃ cfg', getLayer c1Manager.regenerate 0 = some cfg' ∧
      keysFinset cfg'.storage = (tickDemanded c1Manager 0).toFinset ∧
      ∃ report, alookup c1Manager.regenerate.delete_list 0 = some report ∧
        report.Nodup ∧
        (∀ idx, idx ∈ report ↔
          (idx ∈ keysFinset c1Layer.storage ∧ idx ∉ (tickDemanded c1Manager 0).toFinset)) ∧
        (∀ idx ∈ report, idx ∉ keysFinset cfg'.storage)) :=
  ⟨by decide, c1_tick_eviction_exactness c1Manager (by decide) 0 c1Layer rfl⟩

-- Frame, monotonicity and coverage facts about the demand-cascade calls,
-- used for the dependency-cascade claim.

theorem updateLayer_frame (cur : LayersManager) (k : LayerId)
    (f : LayerConfig → LayerConfig) (l : LayerId) (h : l ≠ k) :
    getLayer (updateLayer cur k f) l = getLayer cur l := by
  unfold getLayer updateLayer
  dsimp only
  rw [alookup_aupdate, if_neg h]

theorem requires_target_mem (cfg : LayerConfig) (p : LayerId × Bounds)
    (hp : p ∈ cfg.requires) : p.1 ∈ cfg.depends_on.map Dependency.layer_id := by
  rw [LayerConfig.requires, requiresFrom_mem] at hp
  obtain ⟨idx, _, dep, hdep, rfl⟩ := hp
  exact List.mem_map_of_mem Dependency.layer_id hdep

theorem applyCalls_frame (pairs : List (LayerId × Bounds)) (A : LayerId)
    (h : ∀ p ∈ pairs, p.1 ≠ A) :
    ∀ cur : LayersManager,
      getLayer
        (pairs.foldl
          (fun acc p => updateLayer acc p.1 (fun dep => dep.ensure_generated p.2)) cur) A
        = getLayer cur A := by
  induction pairs with
  | nil => exact fun cur => rfl
  | cons p ps ih =>
    intro cur
    rw [List.foldl_cons]
    rw [ih (fun q hq => h q (List.mem_cons_of_mem _ hq))]
    exact updateLayer_frame cur p.1 _ A
      (fun hh => h p (List.mem_cons_self _ _) hh.symm)

theorem demandVisit_preserves (cur : LayersManager) (lid A : LayerId)
    (h : ∀ cfg, getLayer cur lid = some cfg →
      A ∉ cfg.depends_on.map Dependency.layer_id) :
    getLayer (demandVisit cur lid) A = getLayer cur A := by
  unfold demandVisit
  cases hg : getLayer cur lid with
  | none => rfl
  | some cfg =>
    dsimp only
    refine applyCalls_frame cfg.requires A ?_ cur
    intro p hp hpa
    exact h cfg hg (hpa ▸ requires_target_mem cfg p hp)

theorem applyCall_keys_mono (cur : LayersManager) (p : LayerId × Bounds)
    (l : LayerId) (cfg : LayerConfig) (h : getLayer cur l = some cfg) :
    ∃ cfg', getLayer (updateLayer cur p.1 (fun dep => dep.ensure_generated p.2)) l
        = some cfg' ∧
      keysFinset cfg.storage ⊆ keysFinset cfg'.storage ∧
      cfg'.chunk_size = cfg.chunk_size ∧ cfg'.depends_on = cfg.depends_on := by
  by_cases hl : l = p.1
  · subst hl
    refine ⟨cfg.ensure_generated p.2, ?_, ?_, rfl, rfl⟩
    · unfold getLayer updateLayer
      dsimp only
      rw [alookup_aupdate, if_pos rfl, show alookup cur.layers p.1 = some cfg from h]
      rfl
    · rw [show keysFinset (cfg.ensure_generated p.2).storage
          = keysFinset cfg.storage ∪ (p.2.chunks cfg.chunk_size).toFinset
        from keysFinset_foldl_ensureChunk _ _]
      exact Finset.subset_union_left
  · exact ⟨cfg, by rw [updateLayer_frame cur p.1 _ l hl]; exact h,
      le_refl _, rfl, rfl⟩

theorem applyCalls_keys_mono (pairs : List (LayerId × Bounds)) :
    ∀ (cur : LayersManager) (l : LayerId) (cfg : LayerConfig),
      getLayer cur l = some cfg →
      ∃ cfg', getLayer
          (pairs.foldl
            (fun acc p => updateLayer acc p.1 (fun dep => dep.ensure_generated p.2)) cur) l
          = some cfg' ∧
        keysFinset cfg.storage ⊆ keysFinset cfg'.storage ∧
        cfg'.chunk_size = cfg.chunk_size ∧ cfg'.depends_on = cfg.depends_on := by
  induction pairs with
  | nil => exact fun cur l cfg h => ⟨cfg, h, le_refl _, rfl, rfl⟩
  | cons p ps ih =>
    intro cur l cfg h
    rw [List.foldl_cons]
    obtain ⟨cfg1, h1, h2, h3, h4⟩ := applyCall_keys_mono cur p l cfg h
    obtain ⟨cfg2, h5, h6, h7, h8⟩ := ih _ l cfg1 h1
    exact ⟨cfg2, h5, le_trans h2 h6, h7.trans h3, h8.trans h4⟩

theorem demandVisit_keys_mono (cur : LayersManager) (lid l : LayerId)
    (cfg : LayerConfig) (h : getLayer cur l = some cfg) :
    ∃ cfg', getLayer (demandVisit cur lid) l = some cfg' ∧
      keysFinset cfg.storage ⊆ keysFinset cfg'.storage ∧
      cfg'.chunk_size = cfg.chunk_size ∧ cfg'.depends_on = cfg.depends_on := by
  unfold demandVisit
  cases hg : getLayer cur lid with
  | none => exact ⟨cfg, h, le_refl _, rfl, rfl⟩
  | some cfgv =>
    dsimp only
    exact applyCalls_keys_mono cfgv.requires cur l cfg h

theorem demandFold_keys_mono (rest : List LayerId) :
    ∀ (cur : LayersManager) (l : LayerId) (cfg : LayerConfig),
      getLayer cur l = some cfg →
      ∃ cfg', getLayer (rest.foldl demandVisit cur) l = some cfg' ∧
        keysFinset cfg.storage ⊆ keysFinset cfg'.storage ∧
        cfg'.chunk_size = cfg.chunk_size ∧ cfg'.depends_on = cfg.depends_on := by
  induction rest with
  | nil => exact fun cur l cfg h => ⟨cfg, h, le_refl _, rfl, rfl⟩
  | cons Y rest ih =>
    intro cur l cfg h
    rw [List.foldl_cons]
    obtain ⟨cfg1, h1, h2, h3, h4⟩ := demandVisit_keys_mono cur Y l cfg h
    obtain ⟨cfg2, h5, h6, h7, h8⟩ := ih _ l cfg1 h1
    exact ⟨cfg2, h5, le_trans h2 h6, h7.trans h3, h8.trans h4⟩

theorem applyCalls_covers (pairs : List (LayerId × Bounds)) (p : LayerId × Bounds)
    (hp : p ∈ pairs) :
    ∀ (cur : LayersManager) (cfgT : LayerConfig), getLayer cur p.1 = some cfgT →
      ∃ cfgT', getLayer
          (pairs.foldl
            (fun acc q => updateLayer acc q.1 (fun dep => dep.ensure_generated q.2)) cur) p.1
          = some cfgT' ∧
        (p.2.chunks cfgT.chunk_size).toFinset ⊆ keysFinset cfgT'.storage := by
  induction pairs with
  | nil => cases hp
  | cons q ps ih =>
    intro cur cfgT h
    rw [List.foldl_cons]
    rcases List.mem_cons.mp hp with rfl | hp'
    · have hself : getLayer (updateLayer cur p.1
          (fun dep => dep.ensure_generated p.2)) p.1
          = some (cfgT.ensure_generated p.2) := by
        unfold getLayer updateLayer
        dsimp only
        rw [alookup_aupdate, if_pos rfl, show alookup cur.layers p.1 = some cfgT from h]
        rfl
      obtain ⟨cfg2, h5, h6, h7, h8⟩ :=
        applyCalls_keys_mono ps _ p.1 (cfgT.ensure_generated p.2) hself
      refine ⟨cfg2, h5, ?_⟩
      refine le_trans ?_ h6
      rw [show keysFinset (cfgT.ensure_generated p.2).storage
          = keysFinset cfgT.storage ∪ (p.2.chunks cfgT.chunk_size).toFinset
        from keysFinset_foldl_ensureChunk _ _]
      exact Finset.subset_union_right
    · obtain ⟨cfg1, h1, h2, h3, h4⟩ := applyCall_keys_mono cur q p.1 cfgT h
      obtain ⟨cfg2, h5, h6⟩ := ih hp' _ cfg1 h1
      rw [h3] at h6
      exact ⟨cfg2, h5, le_trans h6 (le_refl _)⟩

/-- The traversal-order relation a built DAG's `Topo` walk guarantees: when
`a` is visited before `b`, `b` does not have `a` among its dependencies (all
demand into `a` is registered before `a` is visited). -/
def TopoR (m : LayersManager) (a b : LayerId) : Prop :=
  ∀ cfgb, getLayer m b = some cfgb → a ∉ cfgb.depends_on.map Dependency.layer_id

theorem sim_layer_of_cur (m cur : LayersManager) (D : Demands)
    (hsim : LayerSim D ((m.clear_usage).clear_deleted) cur) (Z : LayerId)
    (cfgZ : LayerConfig) (h : getLayer cur Z = some cfgZ) :
    ∃ cfgZ0, getLayer m Z = some cfgZ0 ∧
      cfgZ.chunk_size = cfgZ0.chunk_size ∧ cfgZ.depends_on = cfgZ0.depends_on := by
  cases h0 : getLayer m Z with
  | none =>
    have hb : getLayer ((m.clear_usage).clear_deleted) Z = none := by
      rw [clear_usage_layers, h0]
      rfl
    have hnone := getLayer_none_of_sim _ cur hsim.2.2.2.1 Z hb
    rw [h] at hnone
    cases hnone
  | some cfgZ0 =>
    have hb : getLayer ((m.clear_usage).clear_deleted) Z = some (cfgZ0.clear_usage) := by
      rw [clear_usage_layers, h0]
      rfl
    obtain ⟨cfg, hc, ha, hd, _, _, _, _⟩ := hsim.2.2.2.2 Z _ hb
    rw [h] at hc
    cases hc
    exact ⟨cfgZ0, rfl, ha, hd⟩

theorem demandFold_stable (m : LayersManager) (rest : List LayerId) (A : LayerId) :
    (∀ Z ∈ rest, TopoR m A Z) →
    ∀ (cur : LayersManager) (D : Demands),
      LayerSim D ((m.clear_usage).clear_deleted) cur →
      getLayer (rest.foldl demandVisit cur) A = getLayer cur A := by
  induction rest with
  | nil =>
    intro _ cur D _
    rfl
  | cons Z rest ih =>
    intro hR cur D hsim
    rw [List.foldl_cons]
    have hstep : getLayer (demandVisit cur Z) A = getLayer cur A := by
      refine demandVisit_preserves cur Z A ?_
      intro cfgZ hZ
      obtain ⟨cfgZ0, h0, _, hdeps⟩ := sim_layer_of_cur m cur D hsim Z cfgZ hZ
      rw [hdeps]
      exact hR Z (List.mem_cons_self _ _) cfgZ0 h0
    have hsim' := LayerSim_demandVisit _ cur D Z hsim
    rw [ih (fun z hz => hR z (List.mem_cons_of_mem _ hz)) _ _ hsim', hstep]

theorem c2_walk (m : LayersManager) (A B : LayerId) (cfgA0 cfgB0 : LayerConfig)
    (dep : Dependency) (hA0 : getLayer m A = some cfgA0) (hB0 : getLayer m B = some cfgB0)
    (hdep : dep ∈ cfgA0.depends_on) (hdepB : dep.layer_id = B)
    (hselfA : A ∉ cfgA0.depends_on.map Dependency.layer_id) :
    ∀ rest : List LayerId, rest.Pairwise (TopoR m) → A ∈ rest →
      ∀ (cur : LayersManager) (D : Demands),
        LayerSim D ((m.clear_usage).clear_deleted) cur →
        ∃ cfgA' cfgB',
          getLayer (rest.foldl demandVisit cur) A = some cfgA' ∧
          getLayer (rest.foldl demandVisit cur) B = some cfgB' ∧
          ∀ I ∈ keysFinset cfgA'.storage,
            (((I.to_bounds cfgA0.chunk_size.x cfgA0.chunk_size.y).add_padding
                dep.padding).chunks cfgB0.chunk_size).toFinset
              ⊆ keysFinset cfgB'.storage := by
  intro rest
  induction rest with
  | nil =>
    intro _ hmem
    cases hmem
  | cons Y rest ih =>
    intro hpw hmem cur D hsim
    rw [List.foldl_cons]
    obtain ⟨hpwH, hpwT⟩ := List.pairwise_cons.mp hpw
    by_cases hAY : A = Y
    · subst hAY
      have hbA : getLayer ((m.clear_usage).clear_deleted) A
          = some (cfgA0.clear_usage) := by
        rw [clear_usage_layers, hA0]
        rfl
      obtain ⟨cfgA, hcA, haA, hdA, _, _, _, _⟩ := hsim.2.2.2.2 A _ hbA
      have haA' : cfgA.chunk_size = cfgA0.chunk_size := haA
      have hdA' : cfgA.depends_on = cfgA0.depends_on := hdA
      have hbB : getLayer ((m.clear_usage).clear_deleted) B
          = some (cfgB0.clear_usage) := by
        rw [clear_usage_layers, hB0]
        rfl
      obtain ⟨cfgB, hcB, haB, _, _, _, _, _⟩ := hsim.2.2.2.2 B _ hbB
      have haB' : cfgB.chunk_size = cfgB0.chunk_size := haB
      have hvisit : demandVisit cur A
          = cfgA.requires.foldl
              (fun acc p => updateLayer acc p.1 (fun dep => dep.ensure_generated p.2))
              cur := by
        unfold demandVisit
        rw [hcA]
      have hAstable1 : getLayer (demandVisit cur A) A = some cfgA := by
        rw [demandVisit_preserves cur A A ?_]
        · exact hcA
        · intro cfg hcfg
          rw [hcA] at hcfg
          cases hcfg
          rw [hdA']
          exact hselfA
      have hsim1 := LayerSim_demandVisit _ cur D A hsim
      have hAstable2 : getLayer (rest.foldl demandVisit (demandVisit cur A)) A
          = some cfgA := by
        rw [demandFold_stable m rest A hpwH _ _ hsim1, hAstable1]
      obtain ⟨cfgB1, hB1, hB1mono, hB1sz, _⟩ := demandVisit_keys_mono cur A B cfgB hcB
      obtain ⟨cfgB2, hB2, hB2mono, hB2sz, _⟩ := demandFold_keys_mono rest _ B cfgB1 hB1
      refine ⟨cfgA, cfgB2, hAstable2, hB2, ?_⟩
      intro I hI
      have hIs : I ∈ sKeys cfgA.storage := List.mem_toFinset.mp hI
      have hpmem : ((dep.layer_id,
          (I.to_bounds cfgA.chunk_size.x cfgA.chunk_size.y).add_padding dep.padding))
          ∈ cfgA.requires := by
        rw [LayerConfig.requires, requiresFrom_mem]
        refine ⟨I, hIs, dep, ?_, rfl⟩
        rw [hdA']
        exact hdep
      have hcurB : getLayer cur (dep.layer_id,
          (I.to_bounds cfgA.chunk_size.x cfgA.chunk_size.y).add_padding dep.padding).1
          = some cfgB := by
        rw [show ((dep.layer_id,
            (I.to_bounds cfgA.chunk_size.x cfgA.chunk_size.y).add_padding
              dep.padding)).1 = B from hdepB]
        exact hcB
      obtain ⟨cfgT', hT', hTsub⟩ :=
        applyCalls_covers cfgA.requires _ hpmem cur cfgB hcurB
      rw [show ((dep.layer_id,
          (I.to_bounds cfgA.chunk_size.x cfgA.chunk_size.y).add_padding
            dep.padding)).1 = B from hdepB] at hT'
      rw [← hvisit, hB1] at hT'
      cases hT'
      have hsub1 : (((I.to_bounds cfgA.chunk_size.x cfgA.chunk_size.y).add_padding
          dep.padding).chunks cfgB.chunk_size).toFinset ⊆ keysFinset cfgB2.storage :=
        le_trans hTsub hB2mono
      rw [haA', haB'] at hsub1
      exact hsub1
    · have hmem' : A ∈ rest := (List.mem_cons.mp hmem).resolve_left hAY
      have hsim' := LayerSim_demandVisit _ cur D Y hsim
      exact ih hpwT hmem' _ _ hsim'

/-- Decidable form of `TopoR`, for concrete well-formedness checks. -/
def TopoRB (m : LayersManager) (a b : LayerId) : Bool :=
  match getLayer m b with
  | none => true
  | some cfgb => decide (a ∉ cfgb.depends_on.map Dependency.layer_id)

theorem topoRB_topoR (m : LayersManager) (a b : LayerId) (h : TopoRB m a b = true) :
    TopoR m a b := by
  intro cfgb hb
  unfold TopoRB at h
  rw [hb] at h
  simpa using h

/-- Well-formedness needed by the cascade claim: distinct producer ids, a
traversal order in which every producer precedes all of its dependencies and
that visits every registered producer, and no self-dependencies (guaranteed
by cycle rejection). -/
def Wellformed2 (m : LayersManager) : Prop :=
  (m.layers.map Prod.fst).Nodup ∧
  m.topo.Pairwise (fun a b => TopoRB m a b = true) ∧
  (∀ e ∈ m.layers, e.1 ∈ m.topo) ∧
  (∀ e ∈ m.layers, e.1 ∉ e.2.depends_on.map Dependency.layer_id)

instance (m : LayersManager) : Decidable (Wellformed2 m) := by
  unfold Wellformed2
  infer_instance

/-- C2 amended: if producer A declares a dependency on B with padding P, then
once the demand cascade (step 3) completes, B's cache contains an entry for
every index of the covered-indices enumeration (`Bounds::chunks`, the
inclusive floor-to-ceil box) of `indexToBounds(I, A.cellSize).add_padding(P)`,
for every index I cached in A at that point. -/
theorem c2_cascade_coverage (m : LayersManager) (hwf : Wellformed2 m)
    (A B : LayerId) (cfgA0 cfgB0 : LayerConfig) (dep : Dependency)
    (hA0 : getLayer m A = some cfgA0) (hB0 : getLayer m B = some cfgB0)
    (hdep : dep ∈ cfgA0.depends_on) (hdepB : dep.layer_id = B) :
    ∃ cfgA' cfgB',
      getLayer (midState m) A = some cfgA' ∧
      getLayer (midState m) B = some cfgB' ∧
      ∀ I ∈ keysFinset cfgA'.storage,
        (((I.to_bounds cfgA0.chunk_size.x cfgA0.chunk_size.y).add_padding
            dep.padding).chunks cfgB0.chunk_size).toFinset
          ⊆ keysFinset cfgB'.storage := by
  have hbase := LayerSim_refl ((m.clear_usage).clear_deleted)
  have hclients : LayerSim
      (applyCallsD ((m.clear_usage).clear_deleted)
        (clientPairs ((m.clear_usage).clear_deleted).layer_client) noDemands)
      ((m.clear_usage).clear_deleted)
      ((m.clear_usage).clear_deleted).check_client_usages := by
    rw [check_client_usages_eq]
    exact LayerSim_applyCalls _ _ _ noDemands hbase
  have htopo : (((m.clear_usage).clear_deleted).check_client_usages).topo = m.topo :=
    hclients.1
  have hpw : m.topo.Pairwise (TopoR m) :=
    List.Pairwise.imp (fun h => topoRB_topoR m _ _ h) hwf.2.1
  have hmemPair : (A, cfgA0) ∈ m.layers :=
    (alookup_eq_some_iff_mem m.layers hwf.1 A cfgA0).mp hA0
  have hmemA : A ∈ m.topo := hwf.2.2.1 (A, cfgA0) hmemPair
  have hself : A ∉ cfgA0.depends_on.map Dependency.layer_id :=
    hwf.2.2.2 (A, cfgA0) hmemPair
  have hmid : midState m
      = m.topo.foldl demandVisit (((m.clear_usage).clear_deleted).check_client_usages) := by
    show demandPhase _ = _
    unfold demandPhase
    rw [htopo]
  rw [hmid]
  exact c2_walk m A B cfgA0 cfgB0 dep hA0 hB0 hdep hdepB hself m.topo hpw hmemA
    _ _ hclients

-- A two-producer manager exercising the boundary behaviour of the demand
-- cascade: producer 0 declares a dependency on producer 1 with padding (1,1),
-- and one client demands producer 0 at the origin.

def c2cexA : LayerConfig :=
  { layer_id := 0
    depends_on := [⟨1, ⟨1, 1⟩⟩]
    chunk_size := ⟨1, 1⟩
    storage := []
    generator := fun _ _ => ⟨0, 0⟩ }

def c2cexB : LayerConfig :=
  { layer_id := 1
    depends_on := []
    chunk_size := ⟨1, 1⟩
    storage := []
    generator := fun _ _ => ⟨0, 0⟩ }

def c2cexClient : LayerClient := LayerClient.new ⟨0, 0⟩ [⟨0, ⟨0, 0⟩⟩] UsageStrategy.fast

def c2cexManager : LayersManager :=
  { layers := [(0, c2cexA), (1, c2cexB)]
    dag_nodes := [0, 1]
    dag_edges := [(0, 1)]
    topo := [0, 1]
    layer_client := [c2cexClient]
    delete_list := [(0, []), (1, [])] }

/-- The client demand registered on producer 0 (zero padding at the origin). -/
def c2bnds : Bounds := (Bounds.from_point ⟨0, 0⟩).add_padding ⟨0, 0⟩

/-- The padded bounds that producer 0's cached index (0,0) demands of
producer 1. -/
def c2pad : Bounds :=
  ((ChunkIdx.mk 0 0).to_bounds c2cexA.chunk_size.x c2cexA.chunk_size.y).add_padding ⟨1, 1⟩

/-- The manager state after steps 1–2 of the tick on the two-producer
example. -/
def c2s0 : LayersManager :=
  ((c2cexManager.clear_usage).clear_deleted).check_client_usages

theorem requires_eq_nil (c : LayerConfig) (h : c.depends_on = []) : c.requires = [] := by
  unfold LayerConfig.requires requiresFrom
  rw [h]
  simp

theorem alookup_none_not_mem_keys (s : Storage) (j : ChunkIdx)
    (h : alookup s j = none) : j ∉ keysFinset s := by
  unfold keysFinset sKeys
  rw [List.mem_toFinset]
  exact (alookup_eq_none_iff s j).mp h

/-- C2 counterexample to the claim as stated: after the demand cascade
(end of step 3), producer 0's cache holds index (0,0) and its declared
padding is (1,1), yet index (-2,0) of producer 1 — whose cell rectangle
[-2,-1]x[0,1] intersects (touches) the padded bounds [-1,2]x[-1,2] — is
absent from producer 1's cache: `Bounds::chunks` enumerates the inclusive
floor-to-ceil box, not every index whose cell intersects the padded
bounds. -/
theorem c2_counterexample :
    (⟨1, ⟨1, 1⟩⟩ : Dependency) ∈ c2cexA.depends_on ∧
    ∃ cfgA' cfgB',
      getLayer (midState c2cexManager) 0 = some cfgA' ∧
      getLayer (midState c2cexManager) 1 = some cfgB' ∧
      ChunkIdx.mk 0 0 ∈ keysFinset cfgA'.storage ∧
      rectsIntersect
        ((ChunkIdx.mk (-2) 0).to_bounds c2cexB.chunk_size.x c2cexB.chunk_size.y)
        (((ChunkIdx.mk 0 0).to_bounds c2cexA.chunk_size.x c2cexA.chunk_size.y).add_padding
          ⟨1, 1⟩) ∧
      ChunkIdx.mk (-2) 0 ∉ keysFinset cfgB'.storage := by
  have hch0 : c2bnds.chunks c2cexA.chunk_size = [⟨0, 0⟩] := by
    show (intRange ⌊((0 : ℚ) - 0) / 1⌋ ⌈((0 : ℚ) + 0) / 1⌉).flatMap
      (fun x => (intRange ⌊((0 : ℚ) - 0) / 1⌋ ⌈((0 : ℚ) + 0) / 1⌉).map
        (fun y => ChunkIdx.mk x y)) = [ChunkIdx.mk 0 0]
    rw [show ⌊((0 : ℚ) - 0) / 1⌋ = 0 from by norm_num,
        show ⌈((0 : ℚ) + 0) / 1⌉ = 0 from by norm_num]
    decide
  have hstA : (c2cexA.ensure_generated c2bnds).storage
      = [(⟨0, 0⟩, ⟨none, ⟨0, 0, 1⟩⟩)] := by
    show (c2bnds.chunks c2cexA.chunk_size).foldl ensureChunk c2cexA.storage = _
    rw [hch0]
    rfl
  have hgA : getLayer c2s0 0 = some (c2cexA.ensure_generated c2bnds) := rfl
  have hgB : getLayer c2s0 1 = some c2cexB := rfl
  have hreq : (c2cexA.ensure_generated c2bnds).requires = [(1, c2pad)] := by
    unfold LayerConfig.requires
    rw [show sKeys (c2cexA.ensure_generated c2bnds).storage = [ChunkIdx.mk 0 0] from by
      rw [sKeys, hstA]
      rfl]
    rfl
  have hd1 : demandVisit c2s0 0
      = updateLayer c2s0 1 (fun dep => dep.ensure_generated c2pad) := by
    unfold demandVisit
    rw [hgA]
    dsimp only
    rw [hreq]
    rfl
  have hgB2 : getLayer (updateLayer c2s0 1 (fun dep => dep.ensure_generated c2pad)) 1
      = some (c2cexB.ensure_generated c2pad) := by
    unfold getLayer updateLayer
    dsimp only
    rw [alookup_aupdate, if_pos rfl]
    rw [show alookup c2s0.layers 1 = some c2cexB from hgB]
    rfl
  have hmid : midState c2cexManager
      = updateLayer c2s0 1 (fun dep => dep.ensure_generated c2pad) := by
    have h1 : midState c2cexManager = demandVisit (demandVisit c2s0 0) 1 := rfl
    rw [h1, hd1]
    unfold demandVisit
    rw [hgB2]
    dsimp only
    rw [requires_eq_nil _ rfl]
    rfl
  refine ⟨List.mem_cons_self _ _,
    c2cexA.ensure_generated c2bnds, c2cexB.ensure_generated c2pad, ?_, ?_, ?_, ?_, ?_⟩
  · rw [hmid,
      updateLayer_frame c2s0 1 (fun dep => dep.ensure_generated c2pad) 0 (by decide)]
    exact hgA
  · rw [hmid]
    exact hgB2
  · rw [hstA]
    decide
  · show ((-2 : ℤ) : ℚ) * 1 ≤ (((0 : ℤ) : ℚ) + 1) * 1 + 1 ∧
      ((0 : ℤ) : ℚ) * 1 - 1 ≤ (((-2 : ℤ) : ℚ) + 1) * 1 ∧
      ((0 : ℤ) : ℚ) * 1 ≤ (((0 : ℤ) : ℚ) + 1) * 1 + 1 ∧
      ((0 : ℤ) : ℚ) * 1 - 1 ≤ (((0 : ℤ) : ℚ) + 1) * 1
    norm_num
  · have hfl : ⌊c2pad.min.x / c2cexB.chunk_size.x⌋ = -1 := by
      show ⌊(((0 : ℤ) : ℚ) * 1 - 1) / 1⌋ = -1
      norm_num
    have hnm : ChunkIdx.mk (-2) 0 ∉ c2pad.chunks c2cexB.chunk_size := by
      intro hmem
      rw [chunks_mem] at hmem
      have h1 := hmem.1
      rw [hfl] at h1
      exact absurd h1 (by decide)
    apply alookup_none_not_mem_keys
    rw [alookup_ensure_generated, if_neg hnm]
    rfl

/-- C2 witness: the amended cascade-coverage theorem applied to the concrete
two-producer manager. -/
theorem c2_cascade_coverage_witness :
    Wellformed2 c2cexManager ∧
    ∃ cfgA' cfgB',
      getLayer (midState c2cexManager) 0 = some cfgA' ∧
      getLayer (midState c2cexManager) 1 = some cfgB' ∧
      ∀ I ∈ keysFinset cfgA'.storage,
        (((I.to_bounds c2cexA.chunk_size.x c2cexA.chunk_size.y).add_padding
            (⟨1, 1⟩ : Point)).chunks c2cexB.chunk_size).toFinset ⊆ keysFinset cfgB'.storage :=
  ⟨by decide,
   c2_cascade_coverage c2cexManager (by decide) 0 1 c2cexA c2cexB ⟨1, ⟨1, 1⟩⟩ rfl rfl
     (List.mem_cons_self _ _) rfl⟩
